import Mathlib

/-!
# GW2-Toolbox: hash router and view loader (`src/js/gw2toolbox.js`)

A shallow embedding of the client-side router: the route table, `normalizeRoute`,
`getRouteFromHash`, the stylesheet loader (`loadCss` / `unloadCss`) and `loadView`.

Browser state is made explicit.  The document is reduced to what the script reads and
writes: the `<link data-view-css=...>` elements (in document order), the content of the
`#app` element and the `.tab` elements.  What the script awaits or calls into (the HTML
fetch, the dynamic import, a module's `init`, a registered cleanup callback) is supplied
per call as data, so that every claim quantifies over all behaviours of these collaborators.
View code (a module's `init`, a cleanup callback) acts on the content of the app root and on
the page state it keeps for itself (listeners, timers, module variables); view HTML and view
code are taken not to attach or detach `data-view-css` links themselves.

The stylesheet lookup is modelled down to the text of its selector: `loadCss` and `unloadCss`
put `href` into `link[data-view-css="..."]` as it is, so the browser reads it as the body of
a CSS string, and the lookup can miss a link tagged `href` or throw.
-/

namespace GW2Toolbox

/-! ## Route table -/

/-- One view definition of the route table: `{ html, css, module }`; `module` is a path or `null`. -/
structure RouteDefinition where
  html : String
  css : List String
  module : Option String
deriving DecidableEq, Repr

/-- The own properties of a route-table object, as (key, definition) entries; a key is read
at its first entry. -/
abbrev RouteTable := List (String × RouteDefinition)

/-- The shipped table `const routes = { "/achievements": ..., "/about": ... }` (lines 1-15). -/
def routes : RouteTable :=
  [ ("/achievements",
      { html := "views/achievements.html",
        css := ["css/achievements.css", "css/paginator.css"],
        module := some "./achievements.js" }),
    ("/about",
      { html := "views/about.html",
        css := [],
        module := none }) ]

/-- Property names every object literal inherits from `Object.prototype`.  Each of them
reads as a function (or, for `__proto__`, as the prototype object), hence as a truthy value. -/
def objectPrototypeNames : List String :=
  [ "constructor", "__defineGetter__", "__defineSetter__", "hasOwnProperty",
    "__lookupGetter__", "__lookupSetter__", "isPrototypeOf", "propertyIsEnumerable",
    "toString", "valueOf", "__proto__", "toLocaleString" ]

/-- What the property read `routes[key]` yields. -/
inductive Property where
  | own (d : RouteDefinition)
  | inherited (name : String)
  | undefined
deriving DecidableEq, Repr

/-- The property read `tbl[key]` on an object literal: own properties first, then the
prototype chain (`Object.prototype`), else `undefined`. -/
def getProperty (tbl : RouteTable) (key : String) : Property :=
  match tbl.lookup key with
  | some d => .own d
  | none => if objectPrototypeNames.contains key then .inherited key else .undefined

/-- JavaScript truthiness of a property read: objects and functions are truthy,
`undefined` is falsy. -/
def Property.truthy : Property → Bool
  | .own _ => true
  | .inherited _ => true
  | .undefined => false

/-! ## Route normaliser -/

/-- The raw values `normalizeRoute` can be handed: a string, `null` or `undefined`. -/
inductive JsValue where
  | undefined
  | null
  | string (s : String)
deriving DecidableEq, Repr

/-- JavaScript truthiness: `undefined`, `null` and the empty string are falsy. -/
def JsValue.truthy : JsValue → Bool
  | .undefined => false
  | .null => false
  | .string s => s != ""

/-- The function `normalizeRoute(route)` (lines 26-32). -/
def normalizeRoute (route : JsValue) : String :=
  if !route.truthy then
    "/achievements"
  else
    match route with
    | .string s => if (getProperty routes s).truthy then s else "/achievements"
    | _ => "/achievements"

/-- The test `hash.startsWith("#")`. -/
def startsWithHash (hash : String) : Bool :=
  hash.data.head? == some '#'

/-- The call `hash.slice(1)`, used only on a string whose first character is `#`. -/
def slice1 (hash : String) : String :=
  String.mk (hash.data.drop 1)

/-- The function `getRouteFromHash()` (lines 35-40); `window.location.hash` is the argument. -/
def getRouteFromHash (locationHash : String) : String :=
  let hash := if locationHash != "" then locationHash else "#/achievements"
  let route := if startsWithHash hash then slice1 hash else hash
  normalizeRoute (.string route)

/-! ## Browser state -/

/-- A stylesheet `<link>` element carrying a `data-view-css` attribute. -/
structure Link where
  rel : String
  href : String
  dataViewCss : String
deriving DecidableEq, Repr

/-- A `.tab` element: its `data-route` attribute (if any) and whether it has class `active`. -/
structure Tab where
  route : Option String
  active : Bool
deriving DecidableEq, Repr

/-- What view code keeps outside the app root: listeners, timers, module variables.  View code
may rewrite it at will; the router never reads it. -/
abbrev PageState := List String

/-- What a call of a cleanup callback does: the root content and page state it leaves, and
whether it threw. -/
structure CleanupRun where
  root : String
  page : PageState
  threw : Bool

/-- A registered cleanup callback.  It takes no argument; the view that registered it holds
the app root and its own page state, so a call acts on these two. -/
structure Cleanup where
  call : String → PageState → CleanupRun

/-- The value handed back by a module's `init`, as far as `typeof` tells it apart. -/
inductive InitReturn where
  | function (c : Cleanup)
  | other

/-- How a call of `init` ends. -/
inductive InitOutcome where
  | returned (v : InitReturn)
  | threw

/-- What a call of `init` does: the root content and page state it leaves, and how it ends. -/
structure InitRun where
  root : String
  page : PageState
  outcome : InitOutcome

/-- A resolved view module: `init` is `none` when `typeof mod.init` is not `"function"`.
`init` is called with `{ root: appElement }`; it acts on the root content and the page state. -/
structure Module where
  init : Option (String → PageState → InitRun)

/-- How `await import(path)` ends. -/
inductive ImportOutcome where
  | resolved (m : Module)
  | rejected

/-- How `await fetch(...)` followed by `await response.text()` ends: a success response with
its text, a response whose `ok` is false, or a rejected promise. -/
inductive FetchOutcome where
  | ok (text : String)
  | notOk
  | rejected

/-- The collaborators of one `loadView` call. -/
structure Env where
  fetch : String → FetchOutcome
  importModule : String → ImportOutcome

/-- The module-level variable `currentRoute` (lines 19-23). -/
structure CurrentRoute where
  route : Option String
  cleanup : Option Cleanup
  cssHrefs : List String

/-- The state the script and the view code read and write. -/
structure World where
  currentRoute : CurrentRoute
  appInnerHTML : String
  links : List Link
  tabs : List Tab
  page : PageState

/-- The initial value of `currentRoute`. -/
def initialRoute : CurrentRoute :=
  { route := none, cleanup := none, cssHrefs := [] }

/-- What a `loadView` call does, in order (instrumentation; not read by the script).
`linkRemoved` carries the `data-view-css` value of the link that was removed. -/
inductive Event where
  | linkAppended (l : Link)
  | linkRemoved (tag : String)
  | cleanupInvoked (threw : Bool)
  | appReplaced (html : String)
  | activeTabSet (route : String)
  | initInvoked
  | routeCommitted (route : String)
deriving DecidableEq, Repr

/-- A running call: the state together with the events emitted so far. -/
structure Machine where
  world : World
  events : List Event

/-! ## The selector text `link[data-view-css="${href}"]`

Lines 52 and 67 put `href` into the selector unescaped, so the browser reads it as the body
of a CSS string: a backslash starts an escape, a double quote ends the string, a line break
makes the string (and the selector) invalid.  The functions below follow CSS Syntax Level 3
(input preprocessing, "consume a string token", "consume an escaped code point"). -/

/-- The character `"` (U+0022). -/
def quote : Char := Char.ofNat 34

/-- The character `\` (U+005C). -/
def backslash : Char := Char.ofNat 92

/-- The character `]` (U+005D). -/
def rightBracket : Char := Char.ofNat 93

/-- The line feed (U+000A), the one newline left after preprocessing. -/
def lineFeed : Char := Char.ofNat 10

/-- The form feed (U+000C). -/
def formFeed : Char := Char.ofNat 12

/-- The carriage return (U+000D). -/
def carriageReturn : Char := Char.ofNat 13

/-- The character U+0000. -/
def nul : Char := Char.ofNat 0

/-- The character tabulation (U+0009). -/
def tab : Char := Char.ofNat 9

/-- The space (U+0020). -/
def space : Char := Char.ofNat 32

/-- The replacement character (U+FFFD). -/
def replacementCharacter : Char := Char.ofNat 65533

/-- CSS input preprocessing: CR LF, CR and FF become a single LF, U+0000 becomes U+FFFD.
`afterCR` tells that the previous character was a CR. -/
def preprocess (afterCR : Bool) : List Char → List Char
  | [] => []
  | c :: rest =>
    if c = carriageReturn then lineFeed :: preprocess true rest
    else if c = lineFeed then
      if afterCR then preprocess false rest else lineFeed :: preprocess false rest
    else if c = formFeed then lineFeed :: preprocess false rest
    else if c = nul then replacementCharacter :: preprocess false rest
    else c :: preprocess false rest

/-- The value of a hex digit, `none` for any other character. -/
def hexValue (c : Char) : Option Nat :=
  if 48 ≤ c.toNat ∧ c.toNat ≤ 57 then some (c.toNat - 48)
  else if 65 ≤ c.toNat ∧ c.toNat ≤ 70 then some (c.toNat - 55)
  else if 97 ≤ c.toNat ∧ c.toNat ≤ 102 then some (c.toNat - 87)
  else none

/-- CSS whitespace after preprocessing: line feed, tab, space. -/
def isWhitespace (c : Char) : Bool :=
  c == lineFeed || c == tab || c == space

/-- The code point a hex escape stands for: U+FFFD for zero, a surrogate or a number past
U+10FFFF. -/
def escapedCodePoint (n : Nat) : Char :=
  if n = 0 ∨ (55296 ≤ n ∧ n ≤ 57343) ∨ 1114111 < n then replacementCharacter else Char.ofNat n

/-- Where the scan of a string body stands: in plain text, right after a backslash, or inside
a hex escape (its value so far and the number of digits read). -/
inductive Scan where
  | text
  | escaped
  | hex (value digits : Nat)

/-- The outcome of "consume a string token": a string closed by a quote (with the text that
follows it), a string that ran into the end of the input, or a bad string (line break). -/
inductive StringToken where
  | closed (value : List Char) (rest : List Char)
  | unterminated (value : List Char)
  | bad
deriving DecidableEq, Repr

/-- "Consume a string token", started after the opening double quote; `value` is the string
read so far. -/
def consumeString : Scan → List Char → List Char → StringToken
  | .text, value, [] => .unterminated value
  | .text, value, c :: rest =>
    if c = quote then .closed value rest
    else if c = backslash then consumeString .escaped value rest
    else if c = lineFeed then .bad
    else consumeString .text (value ++ [c]) rest
  | .escaped, value, [] => .unterminated value
  | .escaped, value, c :: rest =>
    if c = lineFeed then consumeString .text value rest
    else
      match hexValue c with
      | some v => consumeString (.hex v 1) value rest
      | none => consumeString .text (value ++ [c]) rest
  | .hex n _, value, [] => .unterminated (value ++ [escapedCodePoint n])
  | .hex n digits, value, c :: rest =>
    match hexValue c, decide (digits < 6) with
    | some v, true => consumeString (.hex (16 * n + v) (digits + 1)) value rest
    | _, _ =>
      if isWhitespace c then consumeString .text (value ++ [escapedCodePoint n]) rest
      else if c = quote then .closed (value ++ [escapedCodePoint n]) rest
      else if c = backslash then consumeString .escaped (value ++ [escapedCodePoint n]) rest
      else consumeString .text (value ++ [escapedCodePoint n, c]) rest

/-- The attribute value the selector `link[data-view-css="${href}"]` asks for, `none` when the
selector is invalid (`querySelector` throws a `SyntaxError`).  The string runs from the
opening quote of the template; the selector is valid when that string is closed exactly by
the template's own `"]`, or runs into the end of the text (an unclosed string and block are
closed at the end of input).  A string closed earlier leaves text behind the quote that no
longer reads as the end of an attribute selector: this is reported as invalid without
parsing that text any further. -/
def selectorValue (href : String) : Option String :=
  match consumeString .text [] (preprocess false (href.data ++ [quote, rightBracket])) with
  | .closed value rest => if rest = [rightBracket] then some (String.mk value) else none
  | .unterminated value => some (String.mk value)
  | .bad => none

/-- A character that stands for itself inside a double-quoted CSS string. -/
def plainChar (c : Char) : Bool :=
  !(c == quote || c == backslash || c == lineFeed || c == carriageReturn || c == formFeed
    || c == nul)

/-- An href that needs no escaping inside the quoted selector. -/
def plainHref (href : String) : Bool :=
  href.data.all plainChar

/-- A route table all of whose css hrefs need no escaping. -/
def plainTable (tbl : RouteTable) : Bool :=
  tbl.all (fun entry => entry.2.css.all plainHref)

/-! ## Asset loader -/

/-- What `document.querySelector(selector)` does: it throws, or returns an element or `null`. -/
inductive Query where
  | threw
  | result (l : Option Link)
deriving DecidableEq, Repr

/-- The lookup `document.querySelector('link[data-view-css="' + href + '"]')`: a `SyntaxError`
when the selector is invalid, else the first link, in document order, whose `data-view-css`
attribute is the value the selector asks for. -/
def querySelectorViewCss (links : List Link) (href : String) : Query :=
  match selectorValue href with
  | none => .threw
  | some value => .result (links.find? (fun l => l.dataViewCss == value))

/-- The function `loadCss(href)` (lines 51-63); `none` when it throws (nothing was written). -/
def loadCss (href : String) (m : Machine) : Option Machine :=
  match querySelectorViewCss m.world.links href with
  | .threw => none
  | .result (some _) => some m
  | .result none =>
    let link : Link := { rel := "stylesheet", href := href, dataViewCss := href }
    some { world := { m.world with links := m.world.links ++ [link] },
           events := m.events ++ [.linkAppended link] }

/-- The function `unloadCss(href)` (lines 66-71); `none` when it throws (nothing was written).
`link.remove()` detaches the link that was found. -/
def unloadCss (href : String) (m : Machine) : Option Machine :=
  match querySelectorViewCss m.world.links href with
  | .threw => none
  | .result (some link) =>
    some { world := { m.world with
             links := m.world.links.eraseP (fun l => l.dataViewCss == link.dataViewCss) },
           events := m.events ++ [.linkRemoved link.dataViewCss] }
  | .result none => some m

/-! ## View loader -/

/-- The function `setActiveTab(route)` (lines 43-48). -/
def setActiveTab (route : String) (m : Machine) : Machine :=
  { world := { m.world with
      tabs := m.world.tabs.map (fun a => { a with active := a.route == some route }) },
    events := m.events ++ [.activeTabSet route] }

/-- The assignment `appElement.innerHTML = html`. -/
def setAppInnerHTML (html : String) (m : Machine) : Machine :=
  { world := { m.world with appInnerHTML := html },
    events := m.events ++ [.appReplaced html] }

/-- The text rendered on a failed fetch (line 90). -/
def failureMessage (route : String) : String :=
  "<div role=\"alert\">Failed to load view: " ++ route ++ "</div>"

/-- The loop of lines 81-85: attach every css href of the new view, pushing it on
`nextCssHrefs`.  An error carries the state in which `loadCss` threw. -/
def preloadCss : List String → Machine → List String → Except Machine (Machine × List String)
  | [], m, nextCssHrefs => .ok (m, nextCssHrefs)
  | href :: rest, m, nextCssHrefs =>
    match loadCss href m with
    | none => .error m
    | some m1 => preloadCss rest m1 (nextCssHrefs ++ [href])

/-- Lines 97-103: call the previous cleanup callback when it is a function, discarding a throw. -/
def cleanupOldView (previousCleanup : Option Cleanup) (m : Machine) : Machine :=
  match previousCleanup with
  | some f =>
    { world := { m.world with
        appInnerHTML := (f.call m.world.appInnerHTML m.world.page).root,
        page := (f.call m.world.appInnerHTML m.world.page).page },
      events := m.events ++ [.cleanupInvoked (f.call m.world.appInnerHTML m.world.page).threw] }
  | none => m

/-- Lines 109-120: resolve the module (when `routeDefinition.module` is truthy) and run its
`init`.  Returns `none` when the import rejects or `init` throws, and the new cleanup
callback (or `null`) otherwise; the machine is the state at that point either way. -/
def loadModule (routeDefinition : RouteDefinition) (env : Env) (m : Machine) :
    Machine × Option (Option Cleanup) :=
  match routeDefinition.module with
  | none => (m, some none)
  | some path =>
    if path == "" then (m, some none)
    else
      match env.importModule path with
      | .rejected => (m, none)
      | .resolved mod =>
        match mod.init with
        | none => (m, some none)
        | some init =>
          let r := init m.world.appInnerHTML m.world.page
          let m1 : Machine :=
            { world := { m.world with appInnerHTML := r.root, page := r.page },
              events := m.events ++ [.initInvoked] }
          match r.outcome with
          | .threw => (m1, none)
          | .returned (.function cleanupFunction) => (m1, some (some cleanupFunction))
          | .returned .other => (m1, some none)

/-- The loop of lines 130-134: detach every previous href that the next view does not list.
An error carries the state in which `unloadCss` threw. -/
def cleanupOldCss (nextCssHrefs : List String) : List String → Machine → Except Machine Machine
  | [], m => .ok m
  | href :: rest, m =>
    if !nextCssHrefs.contains href then
      match unloadCss href m with
      | none => .error m
      | some m1 => cleanupOldCss nextCssHrefs rest m1
    else cleanupOldCss nextCssHrefs rest m

/-- How a `loadView` call ends: it ran to the end, it stopped at a non-success response, or
its promise rejected (an error propagated out of it). -/
inductive Outcome where
  | completed
  | fetchFailed
  | threw
deriving DecidableEq, Repr

/-- The end of a `loadView` call: how it ended, the state it left and what it did. -/
structure Result where
  outcome : Outcome
  world : World
  events : List Event

/-- The function `loadView(route)` (lines 74-135), run to completion without interleaving.
The global `routes` is the parameter `tbl`.  When `tbl[route]` is not an own property,
reading `routeDefinition.css` and iterating it throws a `TypeError` before anything is written. -/
def loadView (tbl : RouteTable) (route : String) (env : Env) (w : World) : Result :=
  match getProperty tbl route with
  | .own routeDefinition =>
    let previousCleanup := w.currentRoute.cleanup
    let previousCssHrefs := w.currentRoute.cssHrefs
    -- Preload the new CSS
    match preloadCss routeDefinition.css { world := w, events := [] } [] with
    | .error m => { outcome := .threw, world := m.world, events := m.events }
    | .ok (m1, nextCssHrefs) =>
      -- Preload the new HTML
      match env.fetch routeDefinition.html with
      | .rejected => { outcome := .threw, world := m1.world, events := m1.events }
      | .notOk =>
        let m2 := setAppInnerHTML (failureMessage route) m1
        { outcome := .fetchFailed, world := m2.world, events := m2.events }
      | .ok nextHtml =>
        -- Cleanup the old view
        let m2 := cleanupOldView previousCleanup m1
        let m3 := setAppInnerHTML nextHtml m2
        let m4 := setActiveTab route m3
        -- Load module after the DOM swap
        match loadModule routeDefinition env m4 with
        | (m5, none) => { outcome := .threw, world := m5.world, events := m5.events }
        | (m5, some nextCleanup) =>
          -- Update current route state
          let m6 : Machine :=
            { world := { m5.world with
                currentRoute :=
                  { route := some route, cleanup := nextCleanup, cssHrefs := nextCssHrefs } },
              events := m5.events ++ [.routeCommitted route] }
          -- Cleanup the old CSS
          match cleanupOldCss nextCssHrefs previousCssHrefs m6 with
          | .error m => { outcome := .threw, world := m.world, events := m.events }
          | .ok m7 => { outcome := .completed, world := m7.world, events := m7.events }
  | _ => { outcome := .threw, world := w, events := [] }

/-- A sequence of `loadView` calls, each run to completion before the next starts. -/
def runCalls (tbl : RouteTable) (calls : List (String × Env)) (w : World) : World :=
  calls.foldl (fun acc call => (loadView tbl call.1 call.2 acc).world) w

/-- The outcomes of the calls of such a sequence, in order. -/
def outcomes (tbl : RouteTable) : List (String × Env) → World → List Outcome
  | [], _ => []
  | call :: rest, w =>
    (loadView tbl call.1 call.2 w).outcome :: outcomes tbl rest (loadView tbl call.1 call.2 w).world

/-! ## Vocabulary of the properties -/

/-- The number of attached links tagged `href`. -/
def attachedCount (href : String) (links : List Link) : Nat :=
  links.countP (fun l => l.dataViewCss == href)

/-- The data-model invariant: at most one attached link per href, that is, no two attached
links carry the same `data-view-css` value. -/
def LinksUnique (links : List Link) : Prop :=
  (links.map (fun l => l.dataViewCss)).Nodup

instance (links : List Link) : Decidable (LinksUnique links) :=
  inferInstanceAs (Decidable (List.Nodup _))

/-- The effect of one event on the attached links. -/
def applyEvent (links : List Link) : Event → List Link
  | .linkAppended l => links ++ [l]
  | .linkRemoved tag => links.eraseP (fun l => l.dataViewCss == tag)
  | _ => links

/-- The attached links after a run of events. -/
def replay (events : List Event) (links : List Link) : List Link :=
  events.foldl applyEvent links

/-! ## Intermediate states of a call -/

/-- The first link tagged exactly `tag`. -/
def findTagged (links : List Link) (tag : String) : Option Link :=
  links.find? (fun l => l.dataViewCss == tag)

/-- What `loadCss href` does when the selector asks for `href` itself. -/
def attach (href : String) (m : Machine) : Machine :=
  match findTagged m.world.links href with
  | some _ => m
  | none =>
    let link : Link := { rel := "stylesheet", href := href, dataViewCss := href }
    { world := { m.world with links := m.world.links ++ [link] },
      events := m.events ++ [.linkAppended link] }

/-- What `unloadCss href` does when the selector asks for `href` itself. -/
def detach (href : String) (m : Machine) : Machine :=
  match findTagged m.world.links href with
  | some _ =>
    { world := { m.world with links := m.world.links.eraseP (fun l => l.dataViewCss == href) },
      events := m.events ++ [.linkRemoved href] }
  | none => m

/-- The preloading loop when every selector asks for its href. -/
def preloadMachine (css : List String) (m : Machine) : Machine :=
  css.foldl (fun acc href => attach href acc) m

/-- The teardown loop when every selector asks for its href. -/
def detachStale (previousCssHrefs nextCssHrefs : List String) (m : Machine) : Machine :=
  previousCssHrefs.foldl
    (fun acc href => if !nextCssHrefs.contains href then detach href acc else acc) m

/-- The state in which a loop ended, whether it threw or not. -/
def machineOf : Except Machine Machine → Machine
  | .ok m => m
  | .error m => m

/-- Whether a loop ran to its end. -/
def ranThrough : Except Machine Machine → Bool
  | .ok _ => true
  | .error _ => false

/-- The state in which `loadView` resolves the module, the preloading loop having ended in
`m1`: old view cleaned up, content swapped, active tab set. -/
def beforeModuleAt (route : String) (nextHtml : String) (w : World) (m1 : Machine) : Machine :=
  setActiveTab route (setAppInnerHTML nextHtml (cleanupOldView w.currentRoute.cleanup m1))

/-- The state in which `loadView` resolves the module when every css href of the view is plain. -/
def beforeModule (route : String) (d : RouteDefinition) (nextHtml : String) (w : World) : Machine :=
  beforeModuleAt route nextHtml w (preloadMachine d.css { world := w, events := [] })

/-- The state after the assignment to `currentRoute`. -/
def commit (route : String) (d : RouteDefinition) (c : Option Cleanup) (m : Machine) : Machine :=
  { world := { m.world with currentRoute := { route := some route, cleanup := c, cssHrefs := d.css } },
    events := m.events ++ [.routeCommitted route] }

/-- What `loadView` does once the preloading loop has run through and ended in state `m1`
(lines 87-135). -/
def afterPreload (route : String) (d : RouteDefinition) (env : Env) (w : World)
    (m1 : Machine) : Result :=
  match env.fetch d.html with
  | .rejected => { outcome := .threw, world := m1.world, events := m1.events }
  | .notOk =>
    { outcome := .fetchFailed,
      world := (setAppInnerHTML (failureMessage route) m1).world,
      events := (setAppInnerHTML (failureMessage route) m1).events }
  | .ok nextHtml =>
    match (loadModule d env (beforeModuleAt route nextHtml w m1)).2 with
    | none =>
      { outcome := .threw,
        world := (loadModule d env (beforeModuleAt route nextHtml w m1)).1.world,
        events := (loadModule d env (beforeModuleAt route nextHtml w m1)).1.events }
    | some c =>
      { outcome := if ranThrough (cleanupOldCss d.css w.currentRoute.cssHrefs
            (commit route d c (loadModule d env (beforeModuleAt route nextHtml w m1)).1))
          then .completed else .threw,
        world := (machineOf (cleanupOldCss d.css w.currentRoute.cssHrefs
          (commit route d c (loadModule d env (beforeModuleAt route nextHtml w m1)).1))).world,
        events := (machineOf (cleanupOldCss d.css w.currentRoute.cssHrefs
          (commit route d c (loadModule d env (beforeModuleAt route nextHtml w m1)).1))).events }

/-- The links of a running call are its events replayed on the links it started from. -/
def Tracks (l0 : List Link) (m : Machine) : Prop :=
  m.world.links = replay m.events l0

/-- Exactly the hrefs of `currentRoute.cssHrefs` have a link, and each has one. -/
def LinksMatchRoute (w : World) : Prop :=
  ∀ h, attachedCount h w.links = if h ∈ w.currentRoute.cssHrefs then 1 else 0

/-! ## Sample collaborators and states -/

/-- A module whose `init` renders into the root it is handed and returns nothing. -/
def renderingModule : Module :=
  { init := some (fun root page =>
      { root := root ++ "<p>ready</p>", page := page, outcome := .returned .other }) }

/-- Collaborators for which every fetch succeeds with `<h1>view</h1>` and every import
resolves to `renderingModule`. -/
def renderingEnv : Env :=
  { fetch := fun _ => .ok "<h1>view</h1>", importModule := fun _ => .resolved renderingModule }

/-- Collaborators for which every fetch answers with a non-success response. -/
def failingEnv : Env :=
  { fetch := fun _ => .notOk, importModule := fun _ => .rejected }

/-- The state at script start on a page without view stylesheets and tabs. -/
def startWorld : World :=
  { currentRoute := initialRoute, appInnerHTML := "", links := [], tabs := [], page := [] }

/-- A cleanup callback that clears the root, notes in the page state that it ran, and throws. -/
def throwingCleanup : Cleanup :=
  { call := fun _ page => { root := "", page := page ++ ["listeners removed"], threw := true } }

/-- A cleanup callback that does the same and returns normally. -/
def quietCleanup : Cleanup :=
  { call := fun _ page => { root := "", page := page ++ ["listeners removed"], threw := false } }

/-- A state in which the achievements view is active with `throwingCleanup` registered. -/
def achievementsWorld : World :=
  { currentRoute :=
      { route := some "/achievements", cleanup := some throwingCleanup,
        cssHrefs := ["css/achievements.css", "css/paginator.css"] },
    appInnerHTML := "<h1>achievements</h1>",
    links :=
      [ { rel := "stylesheet", href := "css/achievements.css", dataViewCss := "css/achievements.css" },
        { rel := "stylesheet", href := "css/paginator.css", dataViewCss := "css/paginator.css" } ],
    tabs := [ { route := some "/achievements", active := true },
              { route := some "/about", active := false } ],
    page := ["listeners attached"] }

/-- A route table one of whose css hrefs holds a backslash: `css\a.css`. -/
def backslashTable : RouteTable :=
  [ ("/a", { html := "views/a.html", css := ["css\\a.css"], module := none }),
    ("/b", { html := "views/b.html", css := [], module := none }) ]

/-- A machine on the start state. -/
def startMachine : Machine :=
  { world := startWorld, events := [] }

/-! ## Lemmas: the selector of a plain href -/

theorem plainChar_ne (c : Char) (h : plainChar c = true) :
    c ≠ quote ∧ c ≠ backslash ∧ c ≠ lineFeed ∧ c ≠ carriageReturn ∧ c ≠ formFeed ∧ c ≠ nul := by
  simp only [plainChar, Bool.not_eq_true', Bool.or_eq_false_iff, beq_eq_false_iff_ne] at h
  obtain ⟨⟨⟨⟨⟨h1, h2⟩, h3⟩, h4⟩, h5⟩, h6⟩ := h
  exact ⟨h1, h2, h3, h4, h5, h6⟩

theorem preprocess_plain (l : List Char) (h : l.all plainChar = true) :
    preprocess false (l ++ [quote, rightBracket]) = l ++ [quote, rightBracket] := by
  induction l with
  | nil => decide
  | cons c t ih =>
    simp only [List.all_cons, Bool.and_eq_true] at h
    obtain ⟨_, _, h3, h4, h5, h6⟩ := plainChar_ne c h.1
    rw [List.cons_append]
    simp only [preprocess, h3, h4, h5, h6, if_false]
    rw [ih h.2]

theorem consumeString_plain (l : List Char) (h : l.all plainChar = true) :
    ∀ value, consumeString .text value (l ++ [quote, rightBracket]) =
      .closed (value ++ l) [rightBracket] := by
  induction l with
  | nil => intro value; simp [consumeString]
  | cons c t ih =>
    intro value
    simp only [List.all_cons, Bool.and_eq_true] at h
    obtain ⟨h1, h2, h3, _⟩ := plainChar_ne c h.1
    rw [List.cons_append]
    simp only [consumeString, h1, h2, h3, if_false]
    rw [ih h.2]
    simp

/-- A plain href asks for itself. -/
theorem selectorValue_plain (href : String) (h : plainHref href = true) :
    selectorValue href = some href := by
  unfold selectorValue
  rw [preprocess_plain href.data h, consumeString_plain href.data h]
  simp

theorem loadCss_plain (href : String) (m : Machine) (h : plainHref href = true) :
    loadCss href m = some (attach href m) := by
  unfold loadCss querySelectorViewCss attach findTagged
  rw [selectorValue_plain href h]
  simp only []
  cases List.find? (fun l => l.dataViewCss == href) m.world.links <;> rfl

theorem unloadCss_plain (href : String) (m : Machine) (h : plainHref href = true) :
    unloadCss href m = some (detach href m) := by
  unfold unloadCss querySelectorViewCss detach findTagged
  rw [selectorValue_plain href h]
  simp only []
  cases hq : List.find? (fun l => l.dataViewCss == href) m.world.links with
  | none => rfl
  | some link =>
    have : link.dataViewCss = href := by simpa using List.find?_some hq
    simp only [this]

/-! ## Lemmas: the asset loader on hrefs that stand for themselves -/

theorem linksUnique_iff (links : List Link) :
    LinksUnique links ↔ ∀ href, attachedCount href links ≤ 1 := by
  unfold LinksUnique attachedCount
  rw [List.nodup_iff_count_le_one]
  have e : ∀ href, List.count href (links.map (fun l => l.dataViewCss)) =
      links.countP (fun l => l.dataViewCss == href) := by
    intro href
    simp [List.count, List.countP_map, Function.comp_def]
  simp only [e]

theorem findTagged_eq_none_iff (links : List Link) (href : String) :
    findTagged links href = none ↔ attachedCount href links = 0 := by
  simp [findTagged, attachedCount, List.find?_eq_none, List.countP_eq_zero]

theorem countP_eraseP_self {α : Type} (p : α → Bool) (l : List α) :
    (l.eraseP p).countP p = l.countP p - 1 := by
  induction l with
  | nil => simp
  | cons a t ih =>
    by_cases h : p a = true
    · simp [List.eraseP_cons, h]
    · simp [List.eraseP_cons, h, ih]

theorem countP_eraseP_other {α : Type} (p q : α → Bool) (hpq : ∀ a, p a = true → q a = false)
    (l : List α) : (l.eraseP p).countP q = l.countP q := by
  induction l with
  | nil => simp
  | cons a t ih =>
    by_cases h : p a = true
    · simp [List.eraseP_cons, h, hpq a h]
    · by_cases hq : q a = true <;> simp [List.eraseP_cons, h, hq, ih]

theorem attach_links (href : String) (m : Machine) :
    (attach href m).world.links =
      if attachedCount href m.world.links = 0 then
        m.world.links ++ [{ rel := "stylesheet", href := href, dataViewCss := href }]
      else m.world.links := by
  unfold attach
  cases hq : findTagged m.world.links href with
  | none =>
    have := (findTagged_eq_none_iff _ _).1 hq
    simp [this]
  | some l =>
    have : attachedCount href m.world.links ≠ 0 := by
      intro h0
      rw [← findTagged_eq_none_iff] at h0
      simp [h0] at hq
    simp [this]

theorem detach_links (href : String) (m : Machine) :
    (detach href m).world.links = m.world.links.eraseP (fun l => l.dataViewCss == href) := by
  unfold detach
  cases hq : findTagged m.world.links href with
  | none =>
    simp only
    symm
    apply List.eraseP_of_forall_not
    simpa [findTagged, List.find?_eq_none] using hq
  | some l => rfl

theorem attachedCount_attach (h href : String) (m : Machine) :
    attachedCount h (attach href m).world.links =
      if h = href then max 1 (attachedCount h m.world.links)
      else attachedCount h m.world.links := by
  rw [attach_links]
  by_cases hh : h = href
  · subst hh
    by_cases h0 : attachedCount h m.world.links = 0
    · rw [if_pos h0, if_pos rfl, h0]
      have h0' := h0
      unfold attachedCount at h0' ⊢
      simp [List.countP_append, h0']
    · rw [if_neg h0, if_pos rfl]
      omega
  · by_cases h0 : attachedCount href m.world.links = 0
    · have : (href == h) = false := by simpa using fun e => hh e.symm
      rw [if_pos h0, if_neg hh]
      unfold attachedCount
      simp [List.countP_append, this]
    · rw [if_neg h0, if_neg hh]

theorem attachedCount_detach (h href : String) (m : Machine) :
    attachedCount h (detach href m).world.links =
      if h = href then attachedCount h m.world.links - 1
      else attachedCount h m.world.links := by
  rw [detach_links]
  by_cases hh : h = href
  · subst hh
    simp [attachedCount, countP_eraseP_self]
  · simp only [hh, if_false, attachedCount]
    apply countP_eraseP_other
    intro a ha
    have : a.dataViewCss = href := by simpa using ha
    simpa [this] using fun e => hh e.symm

/-! ## Lemmas: the two loops on hrefs that stand for themselves -/

theorem attach_frame (href : String) (m : Machine) :
    (attach href m).world.currentRoute = m.world.currentRoute ∧
    (attach href m).world.appInnerHTML = m.world.appInnerHTML ∧
    (attach href m).world.tabs = m.world.tabs ∧
    (attach href m).world.page = m.world.page := by
  unfold attach
  cases findTagged m.world.links href <;> simp

theorem detach_frame (href : String) (m : Machine) :
    (detach href m).world.currentRoute = m.world.currentRoute ∧
    (detach href m).world.appInnerHTML = m.world.appInnerHTML ∧
    (detach href m).world.tabs = m.world.tabs ∧
    (detach href m).world.page = m.world.page := by
  unfold detach
  cases findTagged m.world.links href <;> simp

/-- Anything every `attach` call preserves holds after the preloading loop. -/
theorem preloadMachine_induction (P : Machine → Prop) (css : List String)
    (hstep : ∀ href ∈ css, ∀ m, P m → P (attach href m)) :
    ∀ m, P m → P (preloadMachine css m) := by
  induction css with
  | nil => intro m hm; simpa [preloadMachine] using hm
  | cons a t ih =>
    intro m hm
    have h1 : P (attach a m) := hstep a (by simp) m hm
    have := ih (fun href hh => hstep href (by simp [hh])) (attach a m) h1
    simpa [preloadMachine] using this

/-- Anything every `detach` call of a stale href preserves holds after the teardown loop. -/
theorem detachStale_induction (P : Machine → Prop) (prev next : List String)
    (hstep : ∀ href ∈ prev, href ∉ next → ∀ m, P m → P (detach href m)) :
    ∀ m, P m → P (detachStale prev next m) := by
  induction prev with
  | nil => intro m hm; simpa [detachStale] using hm
  | cons a t ih =>
    intro m hm
    have ih' := ih (fun href hh => hstep href (by simp [hh]))
    by_cases ha : a ∈ next
    · have := ih' m hm
      simpa [detachStale, ha] using this
    · have := ih' (detach a m) (hstep a (by simp) ha m hm)
      simpa [detachStale, ha] using this

theorem preloadMachine_frame (css : List String) (m : Machine) :
    (preloadMachine css m).world.currentRoute = m.world.currentRoute ∧
    (preloadMachine css m).world.appInnerHTML = m.world.appInnerHTML ∧
    (preloadMachine css m).world.tabs = m.world.tabs ∧
    (preloadMachine css m).world.page = m.world.page := by
  refine preloadMachine_induction
    (fun x => x.world.currentRoute = m.world.currentRoute ∧
      x.world.appInnerHTML = m.world.appInnerHTML ∧ x.world.tabs = m.world.tabs ∧
      x.world.page = m.world.page)
    css ?_ m ⟨rfl, rfl, rfl, rfl⟩
  intro href _ x hx
  obtain ⟨h1, h2, h3, h4⟩ := attach_frame href x
  exact ⟨h1.trans hx.1, h2.trans hx.2.1, h3.trans hx.2.2.1, h4.trans hx.2.2.2⟩

theorem detachStale_frame (prev next : List String) (m : Machine) :
    (detachStale prev next m).world.currentRoute = m.world.currentRoute ∧
    (detachStale prev next m).world.appInnerHTML = m.world.appInnerHTML ∧
    (detachStale prev next m).world.tabs = m.world.tabs ∧
    (detachStale prev next m).world.page = m.world.page := by
  refine detachStale_induction
    (fun x => x.world.currentRoute = m.world.currentRoute ∧
      x.world.appInnerHTML = m.world.appInnerHTML ∧ x.world.tabs = m.world.tabs ∧
      x.world.page = m.world.page)
    prev next ?_ m ⟨rfl, rfl, rfl, rfl⟩
  intro href _ _ x hx
  obtain ⟨h1, h2, h3, h4⟩ := detach_frame href x
  exact ⟨h1.trans hx.1, h2.trans hx.2.1, h3.trans hx.2.2.1, h4.trans hx.2.2.2⟩

theorem attachedCount_preloadMachine (h : String) (css : List String) :
    ∀ m, attachedCount h (preloadMachine css m).world.links =
      if h ∈ css then max 1 (attachedCount h m.world.links)
      else attachedCount h m.world.links := by
  induction css with
  | nil => intro m; simp [preloadMachine]
  | cons a t ih =>
    intro m
    have e : preloadMachine (a :: t) m = preloadMachine t (attach a m) := by
      simp [preloadMachine]
    rw [e, ih, attachedCount_attach]
    by_cases ha : h = a <;> by_cases ht : h ∈ t <;> simp [ha, ht]

theorem attachedCount_detachStale (h : String) (prev next : List String) :
    ∀ m, attachedCount h (detachStale prev next m).world.links =
      if h ∈ next then attachedCount h m.world.links
      else attachedCount h m.world.links - prev.count h := by
  induction prev with
  | nil => intro m; simp [detachStale]
  | cons a t ih =>
    intro m
    by_cases ha : a ∈ next
    · have e : detachStale (a :: t) next m = detachStale t next m := by
        simp [detachStale, ha]
      rw [e, ih]
      by_cases hn : h ∈ next
      · simp [hn]
      · have : a ≠ h := fun e => hn (e ▸ ha)
        simp [hn, List.count_cons, this]
    · have e : detachStale (a :: t) next m = detachStale t next (detach a m) := by
        simp [detachStale, ha]
      rw [e, ih, attachedCount_detach]
      by_cases hn : h ∈ next
      · have : h ≠ a := fun e => ha (e ▸ hn)
        simp [hn, this]
      · by_cases hha : h = a
        · subst hha
          simp [hn, List.count_cons]
          omega
        · have : a ≠ h := fun e => hha e.symm
          simp [hn, hha, List.count_cons, this]

/-! ## Lemmas: the two loops of `loadView` -/

theorem preloadCss_plain (css : List String) (h : ∀ x ∈ css, plainHref x = true) :
    ∀ m acc, preloadCss css m acc = .ok (preloadMachine css m, acc ++ css) := by
  induction css with
  | nil => intro m acc; simp [preloadCss, preloadMachine]
  | cons a t ih =>
    intro m acc
    have e : preloadMachine (a :: t) m = preloadMachine t (attach a m) := by
      simp [preloadMachine]
    simp only [preloadCss, loadCss_plain a m (h a (by simp)), e,
      ih (fun x hx => h x (by simp [hx]))]
    simp

theorem cleanupOldCss_plain (next prev : List String)
    (h : ∀ x ∈ prev, x ∉ next → plainHref x = true) :
    ∀ m, cleanupOldCss next prev m = .ok (detachStale prev next m) := by
  induction prev with
  | nil => intro m; simp [cleanupOldCss, detachStale]
  | cons a t ih =>
    intro m
    have ih' := ih (fun x hx => h x (by simp [hx]))
    by_cases ha : a ∈ next
    · have e : detachStale (a :: t) next m = detachStale t next m := by
        simp [detachStale, ha]
      simp only [cleanupOldCss, e, ih']
      simp [ha]
    · have e : detachStale (a :: t) next m = detachStale t next (detach a m) := by
        simp [detachStale, ha]
      simp only [cleanupOldCss, e, unloadCss_plain a m (h a (by simp) ha), ih']
      simp [ha]

/-- What neither `loadCss` nor `unloadCss` touches. -/
theorem loadCss_frame (href : String) (m m1 : Machine) (h : loadCss href m = some m1) :
    m1.world.currentRoute = m.world.currentRoute ∧
    m1.world.appInnerHTML = m.world.appInnerHTML ∧
    m1.world.tabs = m.world.tabs ∧
    m1.world.page = m.world.page := by
  unfold loadCss at h
  split at h
  · cases h
  · cases h; exact ⟨rfl, rfl, rfl, rfl⟩
  · cases h; exact ⟨rfl, rfl, rfl, rfl⟩

theorem unloadCss_frame (href : String) (m m1 : Machine) (h : unloadCss href m = some m1) :
    m1.world.currentRoute = m.world.currentRoute ∧
    m1.world.appInnerHTML = m.world.appInnerHTML ∧
    m1.world.tabs = m.world.tabs ∧
    m1.world.page = m.world.page := by
  unfold unloadCss at h
  split at h
  · cases h
  · cases h; exact ⟨rfl, rfl, rfl, rfl⟩
  · cases h; exact ⟨rfl, rfl, rfl, rfl⟩

/-- However the preloading loop ends, it leaves everything but the links alone, and when it
runs through it hands back the css list it was given. -/
theorem preloadCss_frame (css : List String) :
    ∀ m acc,
      (∀ m1, preloadCss css m acc = .error m1 →
        m1.world.currentRoute = m.world.currentRoute ∧
        m1.world.appInnerHTML = m.world.appInnerHTML ∧
        m1.world.tabs = m.world.tabs ∧ m1.world.page = m.world.page) ∧
      (∀ m1 next, preloadCss css m acc = .ok (m1, next) →
        next = acc ++ css ∧
        m1.world.currentRoute = m.world.currentRoute ∧
        m1.world.appInnerHTML = m.world.appInnerHTML ∧
        m1.world.tabs = m.world.tabs ∧ m1.world.page = m.world.page) := by
  induction css with
  | nil =>
    intro m acc
    constructor
    · intro m1 h; simp [preloadCss] at h
    · intro m1 next h
      simp only [preloadCss, Except.ok.injEq, Prod.mk.injEq] at h
      obtain ⟨h1, h2⟩ := h
      subst h1 h2
      simp
  | cons a t ih =>
    intro m acc
    cases hl : loadCss a m with
    | none =>
      constructor
      · intro m1 h
        simp only [preloadCss, hl, Except.error.injEq] at h
        subst h
        exact ⟨rfl, rfl, rfl, rfl⟩
      · intro m1 next h
        simp [preloadCss, hl] at h
    | some m2 =>
      obtain ⟨f1, f2, f3, f4⟩ := loadCss_frame a m m2 hl
      obtain ⟨ihe, iho⟩ := ih m2 (acc ++ [a])
      constructor
      · intro m1 h
        simp only [preloadCss, hl] at h
        obtain ⟨g1, g2, g3, g4⟩ := ihe m1 h
        exact ⟨g1.trans f1, g2.trans f2, g3.trans f3, g4.trans f4⟩
      · intro m1 next h
        simp only [preloadCss, hl] at h
        obtain ⟨g0, g1, g2, g3, g4⟩ := iho m1 next h
        exact ⟨by simpa using g0, g1.trans f1, g2.trans f2, g3.trans f3, g4.trans f4⟩

/-- However the teardown loop ends, it leaves everything but the links alone. -/
theorem cleanupOldCss_frame (next prev : List String) :
    ∀ m,
      (machineOf (cleanupOldCss next prev m)).world.currentRoute = m.world.currentRoute ∧
      (machineOf (cleanupOldCss next prev m)).world.appInnerHTML = m.world.appInnerHTML ∧
      (machineOf (cleanupOldCss next prev m)).world.tabs = m.world.tabs ∧
      (machineOf (cleanupOldCss next prev m)).world.page = m.world.page := by
  induction prev with
  | nil => intro m; simp [cleanupOldCss, machineOf]
  | cons a t ih =>
    intro m
    by_cases ha : a ∈ next
    · have e : cleanupOldCss next (a :: t) m = cleanupOldCss next t m := by
        simp [cleanupOldCss, ha]
      rw [e]; exact ih m
    · cases hu : unloadCss a m with
      | none =>
        have e : cleanupOldCss next (a :: t) m = .error m := by
          simp [cleanupOldCss, ha, hu]
        rw [e]; exact ⟨rfl, rfl, rfl, rfl⟩
      | some m2 =>
        have e : cleanupOldCss next (a :: t) m = cleanupOldCss next t m2 := by
          simp [cleanupOldCss, ha, hu]
        rw [e]
        obtain ⟨f1, f2, f3, f4⟩ := unloadCss_frame a m m2 hu
        obtain ⟨g1, g2, g3, g4⟩ := ih m2
        exact ⟨g1.trans f1, g2.trans f2, g3.trans f3, g4.trans f4⟩

/-! ## Lemmas: unfolding `loadView` -/

theorem getProperty_own_iff (tbl : RouteTable) (key : String) (d : RouteDefinition) :
    getProperty tbl key = .own d ↔ tbl.lookup key = some d := by
  unfold getProperty
  cases h : tbl.lookup key with
  | none => simp only []; split <;> simp
  | some d' => simp

theorem loadView_not_own (tbl : RouteTable) (route : String) (env : Env) (w : World)
    (h : tbl.lookup route = none) :
    loadView tbl route env w = { outcome := .threw, world := w, events := [] } := by
  have h' : ∀ d, getProperty tbl route ≠ .own d := by
    intro d hd
    rw [getProperty_own_iff, h] at hd
    cases hd
  unfold loadView
  split
  · next d hd => exact absurd hd (h' d)
  · rfl

theorem loadView_preload_error (tbl : RouteTable) (route : String) (env : Env) (w : World)
    (d : RouteDefinition) (m : Machine) (h : tbl.lookup route = some d)
    (hp : preloadCss d.css { world := w, events := [] } [] = .error m) :
    loadView tbl route env w = { outcome := .threw, world := m.world, events := m.events } := by
  have h' := (getProperty_own_iff tbl route d).2 h
  simp only [loadView, h', hp]

theorem loadView_preload_ok (tbl : RouteTable) (route : String) (env : Env) (w : World)
    (d : RouteDefinition) (m1 : Machine) (next : List String) (h : tbl.lookup route = some d)
    (hp : preloadCss d.css { world := w, events := [] } [] = .ok (m1, next)) :
    loadView tbl route env w = afterPreload route d env w m1 := by
  have h' := (getProperty_own_iff tbl route d).2 h
  have hn : next = d.css := by
    simpa using ((preloadCss_frame d.css { world := w, events := [] } []).2 m1 next hp).1
  subst hn
  simp only [loadView, h', hp, afterPreload]
  cases env.fetch d.html with
  | rejected => rfl
  | notOk => rfl
  | ok nextHtml =>
    simp only []
    change (match loadModule d env (beforeModuleAt route nextHtml w m1) with
      | (m5, none) => _
      | (m5, some nextCleanup) => _) = _
    cases hl : loadModule d env (beforeModuleAt route nextHtml w m1) with
    | mk m5 r =>
      cases r with
      | none => rfl
      | some c =>
        simp only []
        change (match cleanupOldCss d.css w.currentRoute.cssHrefs (commit route d c m5) with
          | .error m => _
          | .ok m7 => _) = _
        cases cleanupOldCss d.css w.currentRoute.cssHrefs (commit route d c m5) <;> rfl

/-- On a view whose css hrefs are plain the preloading loop runs through. -/
theorem loadView_plain (tbl : RouteTable) (route : String) (env : Env) (w : World)
    (d : RouteDefinition) (h : tbl.lookup route = some d)
    (hplain : ∀ x ∈ d.css, plainHref x = true) :
    loadView tbl route env w =
      afterPreload route d env w (preloadMachine d.css { world := w, events := [] }) :=
  loadView_preload_ok tbl route env w d _ _ h
    (by rw [preloadCss_plain d.css hplain])

theorem loadView_rejected (tbl : RouteTable) (route : String) (env : Env) (w : World)
    (d : RouteDefinition) (h : tbl.lookup route = some d)
    (hplain : ∀ x ∈ d.css, plainHref x = true) (hf : env.fetch d.html = .rejected) :
    loadView tbl route env w =
      { outcome := .threw,
        world := (preloadMachine d.css { world := w, events := [] }).world,
        events := (preloadMachine d.css { world := w, events := [] }).events } := by
  rw [loadView_plain tbl route env w d h hplain]
  simp only [afterPreload, hf]

theorem loadView_notOk (tbl : RouteTable) (route : String) (env : Env) (w : World)
    (d : RouteDefinition) (h : tbl.lookup route = some d)
    (hplain : ∀ x ∈ d.css, plainHref x = true) (hf : env.fetch d.html = .notOk) :
    loadView tbl route env w =
      { outcome := .fetchFailed,
        world := (setAppInnerHTML (failureMessage route)
          (preloadMachine d.css { world := w, events := [] })).world,
        events := (setAppInnerHTML (failureMessage route)
          (preloadMachine d.css { world := w, events := [] })).events } := by
  rw [loadView_plain tbl route env w d h hplain]
  simp only [afterPreload, hf]

theorem loadView_module_threw (tbl : RouteTable) (route : String) (env : Env) (w : World)
    (d : RouteDefinition) (nextHtml : String) (h : tbl.lookup route = some d)
    (hplain : ∀ x ∈ d.css, plainHref x = true)
    (hf : env.fetch d.html = .ok nextHtml)
    (hm : (loadModule d env (beforeModule route d nextHtml w)).2 = none) :
    loadView tbl route env w =
      { outcome := .threw,
        world := (loadModule d env (beforeModule route d nextHtml w)).1.world,
        events := (loadModule d env (beforeModule route d nextHtml w)).1.events } := by
  rw [loadView_plain tbl route env w d h hplain]
  unfold beforeModule at hm ⊢
  simp only [afterPreload, hf, hm]

/-- Past the module step the route is committed; the teardown loop then runs through or throws. -/
theorem loadView_committed (tbl : RouteTable) (route : String) (env : Env) (w : World)
    (d : RouteDefinition) (nextHtml : String) (c : Option Cleanup) (h : tbl.lookup route = some d)
    (hplain : ∀ x ∈ d.css, plainHref x = true)
    (hf : env.fetch d.html = .ok nextHtml)
    (hm : (loadModule d env (beforeModule route d nextHtml w)).2 = some c) :
    loadView tbl route env w =
      { outcome := if ranThrough (cleanupOldCss d.css w.currentRoute.cssHrefs
            (commit route d c (loadModule d env (beforeModule route d nextHtml w)).1))
          then .completed else .threw,
        world := (machineOf (cleanupOldCss d.css w.currentRoute.cssHrefs
          (commit route d c (loadModule d env (beforeModule route d nextHtml w)).1))).world,
        events := (machineOf (cleanupOldCss d.css w.currentRoute.cssHrefs
          (commit route d c (loadModule d env (beforeModule route d nextHtml w)).1))).events } := by
  rw [loadView_plain tbl route env w d h hplain]
  unfold beforeModule at hm ⊢
  simp only [afterPreload, hf, hm]

theorem loadView_completed (tbl : RouteTable) (route : String) (env : Env) (w : World)
    (d : RouteDefinition) (nextHtml : String) (c : Option Cleanup) (h : tbl.lookup route = some d)
    (hplain : ∀ x ∈ d.css, plainHref x = true)
    (hprev : ∀ x ∈ w.currentRoute.cssHrefs, plainHref x = true)
    (hf : env.fetch d.html = .ok nextHtml)
    (hm : (loadModule d env (beforeModule route d nextHtml w)).2 = some c) :
    loadView tbl route env w =
      { outcome := .completed,
        world := (detachStale w.currentRoute.cssHrefs d.css
          (commit route d c (loadModule d env (beforeModule route d nextHtml w)).1)).world,
        events := (detachStale w.currentRoute.cssHrefs d.css
          (commit route d c (loadModule d env (beforeModule route d nextHtml w)).1)).events } := by
  rw [loadView_committed tbl route env w d nextHtml c h hplain hf hm,
    cleanupOldCss_plain d.css w.currentRoute.cssHrefs (fun x hx _ => hprev x hx)]
  rfl

theorem plainTable_lookup (tbl : RouteTable) (route : String) (d : RouteDefinition)
    (hplain : plainTable tbl = true) (h : tbl.lookup route = some d) :
    ∀ x ∈ d.css, plainHref x = true := by
  induction tbl with
  | nil => simp [List.lookup] at h
  | cons e t ih =>
    obtain ⟨k, v⟩ := e
    simp only [plainTable, List.all_cons, Bool.and_eq_true] at hplain
    by_cases hk : (route == k) = true
    · simp only [List.lookup, hk] at h
      cases h
      intro x hx
      exact (List.all_eq_true.1 hplain.1) x hx
    · have hk' : (route == k) = false := by simpa using hk
      simp only [List.lookup, hk'] at h
      exact ih hplain.2 h

/-- A call that ran to the end was made on a key of the table, its fetch succeeded and its
module step handed back a cleanup value. -/
theorem completed_inv (tbl : RouteTable) (route : String) (env : Env) (w : World)
    (hplain : plainTable tbl = true)
    (hc : (loadView tbl route env w).outcome = .completed) :
    ∃ d nextHtml c, tbl.lookup route = some d ∧ (∀ x ∈ d.css, plainHref x = true) ∧
      env.fetch d.html = .ok nextHtml ∧
      (loadModule d env (beforeModule route d nextHtml w)).2 = some c := by
  cases hl : tbl.lookup route with
  | none => rw [loadView_not_own tbl route env w hl] at hc; cases hc
  | some d =>
    have hd : ∀ x ∈ d.css, plainHref x = true := plainTable_lookup tbl route d hplain hl
    cases hf : env.fetch d.html with
    | rejected => rw [loadView_rejected tbl route env w d hl hd hf] at hc; cases hc
    | notOk => rw [loadView_notOk tbl route env w d hl hd hf] at hc; cases hc
    | ok nextHtml =>
      cases hm : (loadModule d env (beforeModule route d nextHtml w)).2 with
      | none => rw [loadView_module_threw tbl route env w d nextHtml hl hd hf hm] at hc; cases hc
      | some c => exact ⟨d, nextHtml, c, rfl, hd, hf, hm⟩

theorem loadModule_frame (d : RouteDefinition) (env : Env) (m : Machine) :
    (loadModule d env m).1.world.currentRoute = m.world.currentRoute ∧
    (loadModule d env m).1.world.links = m.world.links ∧
    (loadModule d env m).1.world.tabs = m.world.tabs := by
  unfold loadModule
  cases d.module with
  | none => simp
  | some path =>
    by_cases hp : (path == "") = true
    · simp [hp]
    · simp only [hp]
      cases env.importModule path with
      | rejected => simp
      | resolved mod =>
        obtain ⟨init⟩ := mod
        cases init with
        | none => simp
        | some init =>
          simp only []
          cases h2 : (init m.world.appInnerHTML m.world.page).outcome with
          | threw => simp
          | returned v => cases v <;> simp

/-! ## Lemmas: the module step and the committed state -/

theorem beforeModule_world (route : String) (d : RouteDefinition) (nextHtml : String) (w : World) :
    (beforeModule route d nextHtml w).world.appInnerHTML = nextHtml ∧
    (beforeModule route d nextHtml w).world.currentRoute = w.currentRoute ∧
    (beforeModule route d nextHtml w).world.links =
      (preloadMachine d.css { world := w, events := [] }).world.links ∧
    (beforeModule route d nextHtml w).world.page =
      (cleanupOldView w.currentRoute.cleanup { world := w, events := [] }).world.page := by
  have hf := preloadMachine_frame d.css { world := w, events := [] }
  refine ⟨rfl, ?_, ?_, ?_⟩
  · cases hc : w.currentRoute.cleanup <;>
      simp [beforeModule, beforeModuleAt, setActiveTab, setAppInnerHTML, cleanupOldView, hc, hf.1]
  · cases hc : w.currentRoute.cleanup <;>
      simp [beforeModule, beforeModuleAt, setActiveTab, setAppInnerHTML, cleanupOldView, hc]
  · cases hc : w.currentRoute.cleanup <;>
      simp [beforeModule, beforeModuleAt, setActiveTab, setAppInnerHTML, cleanupOldView, hc,
        hf.2.1, hf.2.2.2]

theorem loadModule_no_module (d : RouteDefinition) (env : Env) (m : Machine)
    (h : d.module = none ∨ d.module = some "") : loadModule d env m = (m, some none) := by
  unfold loadModule
  rcases h with h | h <;> simp [h]

theorem loadModule_no_init (d : RouteDefinition) (env : Env) (m : Machine) (path : String)
    (mod : Module) (hp : d.module = some path) (hne : path ≠ "")
    (hi : env.importModule path = .resolved mod) (hn : mod.init = none) :
    loadModule d env m = (m, some none) := by
  unfold loadModule
  simp [hp, hne, hi, hn]

theorem loadModule_init (d : RouteDefinition) (env : Env) (m : Machine) (path : String)
    (mod : Module) (init : String → PageState → InitRun) (hp : d.module = some path)
    (hne : path ≠ "") (hi : env.importModule path = .resolved mod) (hn : mod.init = some init) :
    loadModule d env m =
      ({ world := { m.world with
           appInnerHTML := (init m.world.appInnerHTML m.world.page).root,
           page := (init m.world.appInnerHTML m.world.page).page },
         events := m.events ++ [.initInvoked] },
       match (init m.world.appInnerHTML m.world.page).outcome with
       | .threw => none
       | .returned (.function c) => some (some c)
       | .returned .other => some none) := by
  unfold loadModule
  simp only [hp, hi, hn]
  have : (path == "") = false := by simpa using hne
  simp only [this]
  cases h2 : (init m.world.appInnerHTML m.world.page).outcome with
  | threw => simp
  | returned v => cases v <;> simp

/-- The state a call leaves once it has committed, field by field; the teardown loop that
follows decides between `completed` and `threw`. -/
theorem committed_world (tbl : RouteTable) (route : String) (env : Env) (w : World)
    (d : RouteDefinition) (nextHtml : String) (c : Option Cleanup) (h : tbl.lookup route = some d)
    (hplain : ∀ x ∈ d.css, plainHref x = true)
    (hf : env.fetch d.html = .ok nextHtml)
    (hm : (loadModule d env (beforeModule route d nextHtml w)).2 = some c) :
    ((∀ x ∈ w.currentRoute.cssHrefs, plainHref x = true) →
      (loadView tbl route env w).outcome = .completed) ∧
    (loadView tbl route env w).world.currentRoute =
      { route := some route, cleanup := c, cssHrefs := d.css } ∧
    (loadView tbl route env w).world.appInnerHTML =
      (loadModule d env (beforeModule route d nextHtml w)).1.world.appInnerHTML ∧
    (loadView tbl route env w).world.page =
      (loadModule d env (beforeModule route d nextHtml w)).1.world.page := by
  refine ⟨?_, ?_⟩
  · intro hprev
    rw [loadView_completed tbl route env w d nextHtml c h hplain hprev hf hm]
  · rw [loadView_committed tbl route env w d nextHtml c h hplain hf hm]
    have hfr := cleanupOldCss_frame d.css w.currentRoute.cssHrefs
      (commit route d c (loadModule d env (beforeModule route d nextHtml w)).1)
    exact ⟨hfr.1, hfr.2.1, hfr.2.2.2⟩

/-- The state a completed call leaves, field by field. -/
theorem completed_world (tbl : RouteTable) (route : String) (env : Env) (w : World)
    (d : RouteDefinition) (nextHtml : String) (c : Option Cleanup) (h : tbl.lookup route = some d)
    (hplain : ∀ x ∈ d.css, plainHref x = true)
    (hprev : ∀ x ∈ w.currentRoute.cssHrefs, plainHref x = true)
    (hf : env.fetch d.html = .ok nextHtml)
    (hm : (loadModule d env (beforeModule route d nextHtml w)).2 = some c) :
    (loadView tbl route env w).outcome = .completed ∧
    (loadView tbl route env w).world.currentRoute =
      { route := some route, cleanup := c, cssHrefs := d.css } ∧
    (loadView tbl route env w).world.appInnerHTML =
      (loadModule d env (beforeModule route d nextHtml w)).1.world.appInnerHTML ∧
    (loadView tbl route env w).world.links =
      (detachStale w.currentRoute.cssHrefs d.css
        (commit route d c (loadModule d env (beforeModule route d nextHtml w)).1)).world.links := by
  rw [loadView_completed tbl route env w d nextHtml c h hplain hprev hf hm]
  have hfr := detachStale_frame w.currentRoute.cssHrefs d.css
    (commit route d c (loadModule d env (beforeModule route d nextHtml w)).1)
  exact ⟨rfl, hfr.1, hfr.2.1, rfl⟩

/-! ## Claims about the route normaliser -/

theorem routes_key (r : String) (h : ∃ d, routes.lookup r = some d) :
    r = "/achievements" ∨ r = "/about" := by
  obtain ⟨d, hd⟩ := h
  by_cases h1 : r = "/achievements"
  · exact Or.inl h1
  · by_cases h2 : r = "/about"
    · exact Or.inr h2
    · exfalso
      have e1 : (r == "/achievements") = false := by simpa using h1
      have e2 : (r == "/about") = false := by simpa using h2
      simp [routes, List.lookup, e1, e2] at hd

/-- Any input that is neither a key of the shipped table nor a property name inherited from
`Object.prototype` is sent to the fallback route. -/
theorem normalizeRoute_unknown (v : JsValue)
    (hkey : ∀ s, v = .string s → routes.lookup s = none)
    (hproto : ∀ s, v = .string s → s ∉ objectPrototypeNames) :
    normalizeRoute v = "/achievements" := by
  cases v with
  | undefined => rfl
  | null => rfl
  | string s =>
    have h1 := hkey s rfl
    have h2 := hproto s rfl
    unfold normalizeRoute
    split
    · rfl
    · simp [getProperty, h1, h2, Property.truthy]

/-- C6 (the code departs from the claim): `"constructor"` and `"toString"` are not keys of the
route table, yet `normalizeRoute` hands them back instead of the fallback `"/achievements"`,
because `routes[route]` also reads the properties inherited from `Object.prototype`. -/
theorem normalizeRoute_inherited_name :
    routes.lookup "constructor" = none ∧ routes.lookup "toString" = none ∧
    normalizeRoute (.string "constructor") = "constructor" ∧
    normalizeRoute (.string "toString") = "toString" ∧
    getRouteFromHash "#constructor" = "constructor" ∧
    (loadView routes "constructor"
      { fetch := fun _ => .notOk, importModule := fun _ => .rejected }
      { currentRoute := initialRoute, appInnerHTML := "", links := [], tabs := [], page := [] }
      ).outcome = .threw := by
  decide

/-- C7: every key `r` of the route table is a fixed point of `normalizeRoute`, so normalising
twice gives `r` again, and `getRouteFromHash` returns `r` for the location hash `#r`. -/
theorem normalizeRoute_key (r : String) (hkey : ∃ d, routes.lookup r = some d) :
    normalizeRoute (.string r) = r ∧
    normalizeRoute (.string (normalizeRoute (.string r))) = r ∧
    getRouteFromHash ("#" ++ r) = r := by
  rcases routes_key r hkey with h | h <;> subst h <;> decide

/-- Witness for C7 at the key `/about`. -/
theorem normalizeRoute_key_witness :
    (∃ d, routes.lookup "/about" = some d) ∧
    normalizeRoute (.string "/about") = "/about" ∧
    normalizeRoute (.string (normalizeRoute (.string "/about"))) = "/about" ∧
    getRouteFromHash ("#" ++ "/about") = "/about" :=
  ⟨⟨_, rfl⟩, normalizeRoute_key "/about" ⟨_, rfl⟩⟩

/-! ## Claims about one `loadView` call -/

/-- C1 as stated fails: on the shipped table, `loadView("/achievements")` with a successful
fetch of `<h1>view</h1>` and a module whose `init` returns normally completes, but `init` was
handed the app root and rendered into it, so the root content is not the fetched text. -/
theorem loadView_root_differs_after_init :
    routes.lookup "/achievements" =
      some { html := "views/achievements.html",
             css := ["css/achievements.css", "css/paginator.css"],
             module := some "./achievements.js" } ∧
    (∃ f, renderingEnv.importModule "./achievements.js" = .resolved { init := some f } ∧
      ∀ root page, (f root page).outcome = .returned .other) ∧
    renderingEnv.fetch "views/achievements.html" = .ok "<h1>view</h1>" ∧
    (loadView routes "/achievements" renderingEnv startWorld).outcome = .completed ∧
    (loadView routes "/achievements" renderingEnv startWorld).world.appInnerHTML =
      "<h1>view</h1><p>ready</p>" ∧
    (loadView routes "/achievements" renderingEnv startWorld).world.appInnerHTML ≠ "<h1>view</h1>" :=
  ⟨rfl, ⟨_, rfl, fun _ _ => rfl⟩, rfl, rfl, rfl, by decide⟩

/-- C1 (amended): for a key `r` of a table with definition `d` whose css hrefs need no
escaping and whose fetch succeeds with text `h`, from any prior state: when `d` has no module
(`null` or empty), or the module resolves and has no `init` function, the call leaves app
root content `h` and `currentRoute = {route: r, cleanup: null, cssHrefs: d.css}`; when the
module resolves and its `init`, called on a root holding `h` (and on the page state the old
view's cleanup left), returns a value, the call leaves in the app root the content `init`
left there and `currentRoute = {route: r, cleanup: c, cssHrefs: d.css}`, where `c` is the
returned value if it is a function and `null` otherwise.  In each case the call runs to its
end when the previous css hrefs need no escaping either. -/
theorem loadView_success (tbl : RouteTable) (r : String) (d : RouteDefinition) (env : Env)
    (h : String) (w : World) (hkey : tbl.lookup r = some d)
    (hplain : ∀ x ∈ d.css, plainHref x = true) (hfetch : env.fetch d.html = .ok h) :
    ((d.module = none ∨ d.module = some "") →
      ((∀ x ∈ w.currentRoute.cssHrefs, plainHref x = true) →
        (loadView tbl r env w).outcome = .completed) ∧
      (loadView tbl r env w).world.appInnerHTML = h ∧
      (loadView tbl r env w).world.currentRoute =
        { route := some r, cleanup := none, cssHrefs := d.css }) ∧
    (∀ path mod, d.module = some path → path ≠ "" → env.importModule path = .resolved mod →
      (mod.init = none →
        ((∀ x ∈ w.currentRoute.cssHrefs, plainHref x = true) →
          (loadView tbl r env w).outcome = .completed) ∧
        (loadView tbl r env w).world.appInnerHTML = h ∧
        (loadView tbl r env w).world.currentRoute =
          { route := some r, cleanup := none, cssHrefs := d.css }) ∧
      (∀ init c, mod.init = some init →
        (init h (cleanupOldView w.currentRoute.cleanup
          { world := w, events := [] }).world.page).outcome = .returned (.function c) →
        ((∀ x ∈ w.currentRoute.cssHrefs, plainHref x = true) →
          (loadView tbl r env w).outcome = .completed) ∧
        (loadView tbl r env w).world.appInnerHTML =
          (init h (cleanupOldView w.currentRoute.cleanup
            { world := w, events := [] }).world.page).root ∧
        (loadView tbl r env w).world.currentRoute =
          { route := some r, cleanup := some c, cssHrefs := d.css }) ∧
      (∀ init, mod.init = some init →
        (init h (cleanupOldView w.currentRoute.cleanup
          { world := w, events := [] }).world.page).outcome = .returned .other →
        ((∀ x ∈ w.currentRoute.cssHrefs, plainHref x = true) →
          (loadView tbl r env w).outcome = .completed) ∧
        (loadView tbl r env w).world.appInnerHTML =
          (init h (cleanupOldView w.currentRoute.cleanup
            { world := w, events := [] }).world.page).root ∧
        (loadView tbl r env w).world.currentRoute =
          { route := some r, cleanup := none, cssHrefs := d.css })) := by
  have hb := (beforeModule_world r d h w).1
  have hpg := (beforeModule_world r d h w).2.2.2
  refine ⟨?_, ?_⟩
  · intro hm
    have e := loadModule_no_module d env (beforeModule r d h w) hm
    obtain ⟨h1, h2, h3, _⟩ := committed_world tbl r env w d h none hkey hplain hfetch (by rw [e])
    refine ⟨h1, ?_, h2⟩
    rw [h3, e]
    exact hb
  · intro path mod hp hne hi
    refine ⟨?_, ?_, ?_⟩
    · intro hn
      have e := loadModule_no_init d env (beforeModule r d h w) path mod hp hne hi hn
      obtain ⟨h1, h2, h3, _⟩ := committed_world tbl r env w d h none hkey hplain hfetch (by rw [e])
      refine ⟨h1, ?_, h2⟩
      rw [h3, e]
      exact hb
    · intro init c hn hr
      have e := loadModule_init d env (beforeModule r d h w) path mod init hp hne hi hn
      rw [hb, hpg, hr] at e
      obtain ⟨h1, h2, h3, _⟩ :=
        committed_world tbl r env w d h (some c) hkey hplain hfetch (by rw [e])
      refine ⟨h1, ?_, h2⟩
      rw [h3, e]
    · intro init hn hr
      have e := loadModule_init d env (beforeModule r d h w) path mod init hp hne hi hn
      rw [hb, hpg, hr] at e
      obtain ⟨h1, h2, h3, _⟩ := committed_world tbl r env w d h none hkey hplain hfetch (by rw [e])
      refine ⟨h1, ?_, h2⟩
      rw [h3, e]

/-- Witness for C1 (amended) at the route `/about`, which has no module. -/
theorem loadView_success_witness :
    routes.lookup "/about" = some { html := "views/about.html", css := [], module := none } ∧
    renderingEnv.fetch "views/about.html" = .ok "<h1>view</h1>" ∧
    (∀ x ∈ startWorld.currentRoute.cssHrefs, plainHref x = true) ∧
    (loadView routes "/about" renderingEnv startWorld).outcome = .completed ∧
    (loadView routes "/about" renderingEnv startWorld).world.appInnerHTML = "<h1>view</h1>" ∧
    (loadView routes "/about" renderingEnv startWorld).world.currentRoute =
      { route := some "/about", cleanup := none, cssHrefs := [] } :=
  have hprev : ∀ x ∈ startWorld.currentRoute.cssHrefs, plainHref x = true := by decide
  have key := (loadView_success routes "/about"
    { html := "views/about.html", css := [], module := none }
    renderingEnv "<h1>view</h1>" startWorld rfl (by decide) rfl).1 (Or.inl rfl)
  ⟨rfl, rfl, hprev, key.1 hprev, key.2⟩

/-- C2: for a key `r` of a table whose css hrefs need no escaping (as in the shipped table),
if the fetch returns a non-success response then, from any prior state, the call stops with
the app root holding exactly the failure message for `r`, and `currentRoute` is what it was
before the call. -/
theorem loadView_fetch_failure (tbl : RouteTable) (r : String) (d : RouteDefinition) (env : Env)
    (w : World) (hkey : tbl.lookup r = some d) (hplain : ∀ x ∈ d.css, plainHref x = true)
    (hfetch : env.fetch d.html = .notOk) :
    (loadView tbl r env w).outcome = .fetchFailed ∧
    (loadView tbl r env w).world.appInnerHTML =
      "<div role=\"alert\">Failed to load view: " ++ r ++ "</div>" ∧
    (loadView tbl r env w).world.currentRoute = w.currentRoute := by
  rw [loadView_notOk tbl r env w d hkey hplain hfetch]
  exact ⟨rfl, rfl, (preloadMachine_frame d.css { world := w, events := [] }).1⟩

/-- Witness for C2 at the route `/achievements` with a failing fetch. -/
theorem loadView_fetch_failure_witness :
    routes.lookup "/achievements" =
      some { html := "views/achievements.html",
             css := ["css/achievements.css", "css/paginator.css"],
             module := some "./achievements.js" } ∧
    (∀ x ∈ ["css/achievements.css", "css/paginator.css"], plainHref x = true) ∧
    failingEnv.fetch "views/achievements.html" = .notOk ∧
    (loadView routes "/achievements" failingEnv startWorld).outcome = .fetchFailed ∧
    (loadView routes "/achievements" failingEnv startWorld).world.appInnerHTML =
      "<div role=\"alert\">Failed to load view: " ++ "/achievements" ++ "</div>" ∧
    (loadView routes "/achievements" failingEnv startWorld).world.currentRoute =
      startWorld.currentRoute :=
  ⟨rfl, by decide, rfl,
    loadView_fetch_failure routes "/achievements" _ failingEnv startWorld rfl (by decide) rfl⟩

/-- Once the preloading loop has run through, a call either leaves `currentRoute` alone or
commits the route it was called on, with the css list of that route. -/
theorem afterPreload_currentRoute (r : String) (d : RouteDefinition) (env : Env) (w : World)
    (m1 : Machine) (h1 : m1.world.currentRoute = w.currentRoute) :
    (afterPreload r d env w m1).world.currentRoute = w.currentRoute ∨
    ∃ c, (afterPreload r d env w m1).world.currentRoute =
      { route := some r, cleanup := c, cssHrefs := d.css } := by
  unfold afterPreload
  cases env.fetch d.html with
  | rejected => exact Or.inl h1
  | notOk => exact Or.inl h1
  | ok nextHtml =>
    simp only []
    have hb : (beforeModuleAt r nextHtml w m1).world.currentRoute = w.currentRoute := by
      cases hc : w.currentRoute.cleanup <;>
        simp [beforeModuleAt, setActiveTab, setAppInnerHTML, cleanupOldView, hc, h1]
    cases hm : (loadModule d env (beforeModuleAt r nextHtml w m1)).2 with
    | none =>
      left
      exact (loadModule_frame d env _).1.trans hb
    | some c =>
      right
      exact ⟨c, (cleanupOldCss_frame d.css w.currentRoute.cssHrefs _).1⟩

/-- Whatever way a call ends, it either leaves `currentRoute` alone or commits the route it
was called on, with the css list of that route. -/
theorem loadView_currentRoute (tbl : RouteTable) (r : String) (env : Env) (w : World) :
    (loadView tbl r env w).world.currentRoute = w.currentRoute ∨
    ∃ d c, tbl.lookup r = some d ∧
      (loadView tbl r env w).world.currentRoute =
        { route := some r, cleanup := c, cssHrefs := d.css } := by
  cases hl : tbl.lookup r with
  | none => left; rw [loadView_not_own tbl r env w hl]
  | some d =>
    cases hp : preloadCss d.css { world := w, events := [] } [] with
    | error m =>
      left
      rw [loadView_preload_error tbl r env w d m hl hp]
      exact ((preloadCss_frame d.css _ _).1 m hp).1
    | ok res =>
      obtain ⟨m1, next⟩ := res
      rw [loadView_preload_ok tbl r env w d m1 next hl hp]
      have h1 := ((preloadCss_frame d.css _ _).2 m1 next hp).2.1
      rcases afterPreload_currentRoute r d env w m1 h1 with h | ⟨c, h⟩
      · exact Or.inl h
      · exact Or.inr ⟨d, c, rfl, h⟩

/-- C3: in every state reached from the initial `currentRoute` (whatever the page holds) by a
finite sequence of `loadView` calls, however each call ends, `currentRoute.cssHrefs` is the
css list of the table entry of `currentRoute.route`, and is empty while that route is `null`. -/
theorem currentRoute_css_invariant (tbl : RouteTable) (calls : List (String × Env))
    (app : String) (links : List Link) (tabs : List Tab) (page : PageState) :
    match (runCalls tbl calls
        { currentRoute := initialRoute, appInnerHTML := app, links := links, tabs := tabs,
          page := page }).currentRoute.route with
    | none =>
      (runCalls tbl calls
        { currentRoute := initialRoute, appInnerHTML := app, links := links, tabs := tabs,
          page := page }).currentRoute.cssHrefs = []
    | some r =>
      ∃ d, tbl.lookup r = some d ∧
        (runCalls tbl calls
          { currentRoute := initialRoute, appInnerHTML := app, links := links, tabs := tabs,
            page := page }).currentRoute.cssHrefs = d.css := by
  have step : ∀ (cs : List (String × Env)) (w : World),
      (match w.currentRoute.route with
        | none => w.currentRoute.cssHrefs = []
        | some r => ∃ d, tbl.lookup r = some d ∧ w.currentRoute.cssHrefs = d.css) →
      (match (runCalls tbl cs w).currentRoute.route with
        | none => (runCalls tbl cs w).currentRoute.cssHrefs = []
        | some r => ∃ d, tbl.lookup r = some d ∧ (runCalls tbl cs w).currentRoute.cssHrefs = d.css) := by
    intro cs
    induction cs with
    | nil => intro w hw; simpa [runCalls] using hw
    | cons call rest ih =>
      intro w hw
      have e : runCalls tbl (call :: rest) w = runCalls tbl rest (loadView tbl call.1 call.2 w).world := by
        simp [runCalls]
      rw [e]
      apply ih
      rcases loadView_currentRoute tbl call.1 call.2 w with hsame | ⟨d, c, hd, hnew⟩
      · rw [hsame]; exact hw
      · rw [hnew]; exact ⟨d, hd, rfl⟩
  exact step calls _ rfl

/-! ## Lemmas: the events of a call -/

theorem attach_events (href : String) (m : Machine) :
    (attach href m).events =
      m.events ++ (if attachedCount href m.world.links = 0 then
        [.linkAppended { rel := "stylesheet", href := href, dataViewCss := href }] else []) := by
  unfold attach
  cases hq : findTagged m.world.links href with
  | none =>
    have := (findTagged_eq_none_iff _ _).1 hq
    simp [this]
  | some l =>
    have : attachedCount href m.world.links ≠ 0 := by
      intro h0
      rw [← findTagged_eq_none_iff] at h0
      simp [h0] at hq
    simp [this]

theorem detach_events (href : String) (m : Machine) :
    (detach href m).events =
      m.events ++ (if attachedCount href m.world.links = 0 then [] else [.linkRemoved href]) := by
  unfold detach
  cases hq : findTagged m.world.links href with
  | none =>
    have := (findTagged_eq_none_iff _ _).1 hq
    simp [this]
  | some l =>
    have : attachedCount href m.world.links ≠ 0 := by
      intro h0
      rw [← findTagged_eq_none_iff] at h0
      simp [h0] at hq
    simp [this]

/-- The preloading loop only appends links, and only for hrefs of the list that had no link. -/
theorem preloadMachine_events (css : List String) :
    ∀ m, ∃ evs, (preloadMachine css m).events = m.events ++ evs ∧
      ∀ e ∈ evs, ∃ x ∈ css,
        e = .linkAppended { rel := "stylesheet", href := x, dataViewCss := x } ∧
        attachedCount x m.world.links = 0 := by
  induction css with
  | nil => intro m; exact ⟨[], by simp [preloadMachine], by simp⟩
  | cons a t ih =>
    intro m
    obtain ⟨evs, he, hp⟩ := ih (attach a m)
    have e : preloadMachine (a :: t) m = preloadMachine t (attach a m) := by
      simp [preloadMachine]
    refine ⟨(if attachedCount a m.world.links = 0 then
        [.linkAppended { rel := "stylesheet", href := a, dataViewCss := a }] else []) ++ evs, ?_, ?_⟩
    · rw [e, he, attach_events, List.append_assoc]
    · intro ev hev
      rcases List.mem_append.1 hev with h1 | h1
      · by_cases h0 : attachedCount a m.world.links = 0
        · rw [if_pos h0] at h1
          exact ⟨a, by simp, by simpa using h1, h0⟩
        · rw [if_neg h0] at h1
          cases h1
      · obtain ⟨x, hx, hxe, hx0⟩ := hp ev h1
        refine ⟨x, by simp [hx], hxe, ?_⟩
        rw [attachedCount_attach] at hx0
        split at hx0 <;> omega

/-- The teardown loop only removes links, and only for previous hrefs the next view lacks. -/
theorem detachStale_events (prev next : List String) :
    ∀ m, ∃ evs, (detachStale prev next m).events = m.events ++ evs ∧
      ∀ e ∈ evs, ∃ x ∈ prev, x ∉ next ∧ e = .linkRemoved x := by
  induction prev with
  | nil => intro m; exact ⟨[], by simp [detachStale], by simp⟩
  | cons a t ih =>
    intro m
    by_cases ha : a ∈ next
    · have e : detachStale (a :: t) next m = detachStale t next m := by
        simp [detachStale, ha]
      obtain ⟨evs, he, hp⟩ := ih m
      refine ⟨evs, by rw [e, he], ?_⟩
      intro ev hev
      obtain ⟨x, hx, hxn, hxe⟩ := hp ev hev
      exact ⟨x, by simp [hx], hxn, hxe⟩
    · have e : detachStale (a :: t) next m = detachStale t next (detach a m) := by
        simp [detachStale, ha]
      obtain ⟨evs, he, hp⟩ := ih (detach a m)
      refine ⟨(if attachedCount a m.world.links = 0 then [] else [.linkRemoved a]) ++ evs, ?_, ?_⟩
      · rw [e, he, detach_events, List.append_assoc]
      · intro ev hev
        rcases List.mem_append.1 hev with h1 | h1
        · by_cases h0 : attachedCount a m.world.links = 0
          · rw [if_pos h0] at h1
            cases h1
          · rw [if_neg h0] at h1
            exact ⟨a, by simp, ha, by simpa using h1⟩
        · obtain ⟨x, hx, hxn, hxe⟩ := hp ev h1
          exact ⟨x, by simp [hx], hxn, hxe⟩

theorem loadModule_events (d : RouteDefinition) (env : Env) (m : Machine) :
    ∃ evs, (loadModule d env m).1.events = m.events ++ evs ∧ ∀ e ∈ evs, e = .initInvoked := by
  unfold loadModule
  cases d.module with
  | none => exact ⟨[], by simp, by simp⟩
  | some path =>
    by_cases hp : (path == "") = true
    · exact ⟨[], by simp [hp], by simp⟩
    · simp only [hp]
      cases env.importModule path with
      | rejected => exact ⟨[], by simp, by simp⟩
      | resolved mod =>
        obtain ⟨init⟩ := mod
        cases init with
        | none => exact ⟨[], by simp, by simp⟩
        | some init =>
          simp only []
          refine ⟨[.initInvoked], ?_, by simp⟩
          cases h2 : (init m.world.appInnerHTML m.world.page).outcome with
          | threw => simp
          | returned v => cases v <;> simp

theorem beforeModule_events (route : String) (d : RouteDefinition) (nextHtml : String) (w : World) :
    (beforeModule route d nextHtml w).events =
      (preloadMachine d.css { world := w, events := [] }).events ++
        (match w.currentRoute.cleanup with
          | some f => [.cleanupInvoked (f.call w.appInnerHTML w.page).threw]
          | none => []) ++ [.appReplaced nextHtml, .activeTabSet route] := by
  have hf := (preloadMachine_frame d.css { world := w, events := [] }).2.1
  have hg := (preloadMachine_frame d.css { world := w, events := [] }).2.2.2
  cases hc : w.currentRoute.cleanup <;>
    simp [beforeModule, beforeModuleAt, setActiveTab, setAppInnerHTML, cleanupOldView, hc, hf, hg]

/-- However the teardown loop ends, it emits link removals only. -/
theorem cleanupOldCss_events (next prev : List String) :
    ∀ m, ∃ evs, (machineOf (cleanupOldCss next prev m)).events = m.events ++ evs ∧
      ∀ e ∈ evs, ∃ t, e = .linkRemoved t := by
  induction prev with
  | nil => intro m; exact ⟨[], by simp [cleanupOldCss, machineOf], by simp⟩
  | cons a t ih =>
    intro m
    by_cases ha : a ∈ next
    · have e : cleanupOldCss next (a :: t) m = cleanupOldCss next t m := by
        simp [cleanupOldCss, ha]
      rw [e]; exact ih m
    · cases hu : unloadCss a m with
      | none =>
        have e : cleanupOldCss next (a :: t) m = .error m := by
          simp [cleanupOldCss, ha, hu]
        rw [e]; exact ⟨[], by simp [machineOf], by simp⟩
      | some m2 =>
        have e : cleanupOldCss next (a :: t) m = cleanupOldCss next t m2 := by
          simp [cleanupOldCss, ha, hu]
        rw [e]
        obtain ⟨evs, he, hp⟩ := ih m2
        have h2 : ∃ evs2, m2.events = m.events ++ evs2 ∧ ∀ e ∈ evs2, ∃ t, e = .linkRemoved t := by
          unfold unloadCss at hu
          split at hu
          · cases hu
          · cases hu; exact ⟨[_], rfl, by simp⟩
          · cases hu; exact ⟨[], by simp, by simp⟩
        obtain ⟨evs2, he2, hp2⟩ := h2
        refine ⟨evs2 ++ evs, by rw [he, he2, List.append_assoc], ?_⟩
        intro ev hev
        rcases List.mem_append.1 hev with h1 | h1
        · exact hp2 ev h1
        · exact hp ev h1

/-- The events of a call whose fetch succeeded, on a view whose css hrefs are plain: links
appended for css hrefs of the new view that had no link, the cleanup call (when one was
registered), the content swap, the tab update, and after these only `init`, the commit and
link removals. -/
theorem loadView_ok_events (tbl : RouteTable) (r : String) (env : Env) (w : World)
    (d : RouteDefinition) (h : String) (hkey : tbl.lookup r = some d)
    (hplain : ∀ x ∈ d.css, plainHref x = true)
    (hfetch : env.fetch d.html = .ok h) :
    ∃ pre post, (loadView tbl r env w).events =
        pre ++ (match w.currentRoute.cleanup with
          | some f => [.cleanupInvoked (f.call w.appInnerHTML w.page).threw]
          | none => []) ++ .appReplaced h :: .activeTabSet r :: post ∧
      (∀ e ∈ pre, ∃ x ∈ d.css,
        e = .linkAppended { rel := "stylesheet", href := x, dataViewCss := x } ∧
        attachedCount x w.links = 0) ∧
      (∀ e ∈ post, e = .initInvoked ∨ e = .routeCommitted r ∨ ∃ t, e = .linkRemoved t) ∧
      ((∀ x ∈ w.currentRoute.cssHrefs, plainHref x = true) →
        ∀ e ∈ post, e = .initInvoked ∨ e = .routeCommitted r ∨
          ∃ x ∈ w.currentRoute.cssHrefs, x ∉ d.css ∧ e = .linkRemoved x) := by
  obtain ⟨pre, hpre, hprep⟩ := preloadMachine_events d.css { world := w, events := [] }
  obtain ⟨mev, hmev, hmevp⟩ := loadModule_events d env (beforeModule r d h w)
  have hb := beforeModule_events r d h w
  simp only [List.nil_append] at hpre
  rw [hpre] at hb
  cases hm : (loadModule d env (beforeModule r d h w)).2 with
  | none =>
    rw [loadView_module_threw tbl r env w d h hkey hplain hfetch hm]
    refine ⟨pre, mev, ?_, hprep, ?_, ?_⟩
    · simp only [hmev, hb]
      simp
    · intro e he
      exact Or.inl (hmevp e he)
    · intro _ e he
      exact Or.inl (hmevp e he)
  | some c =>
    rw [loadView_committed tbl r env w d h c hkey hplain hfetch hm]
    obtain ⟨cev, hcev, hcevp⟩ := cleanupOldCss_events d.css w.currentRoute.cssHrefs
      (commit r d c (loadModule d env (beforeModule r d h w)).1)
    refine ⟨pre, mev ++ [.routeCommitted r] ++ cev, ?_, hprep, ?_, ?_⟩
    · show (machineOf (cleanupOldCss d.css w.currentRoute.cssHrefs
          (commit r d c (loadModule d env (beforeModule r d h w)).1))).events = _
      rw [hcev]
      simp only [commit, hmev, hb]
      simp
    · intro e he
      simp only [List.mem_append, List.mem_singleton] at he
      rcases he with (he | he) | he
      · exact Or.inl (hmevp e he)
      · exact Or.inr (Or.inl he)
      · exact Or.inr (Or.inr (hcevp e he))
    · intro hprev e he
      have hx : cleanupOldCss d.css w.currentRoute.cssHrefs
          (commit r d c (loadModule d env (beforeModule r d h w)).1) =
          .ok (detachStale w.currentRoute.cssHrefs d.css
            (commit r d c (loadModule d env (beforeModule r d h w)).1)) :=
        cleanupOldCss_plain d.css w.currentRoute.cssHrefs (fun x hx _ => hprev x hx) _
      rw [hx] at hcev
      obtain ⟨cev2, hcev2, hcevp2⟩ := detachStale_events w.currentRoute.cssHrefs d.css
        (commit r d c (loadModule d env (beforeModule r d h w)).1)
      have hsame : cev = cev2 := by
        have : (commit r d c (loadModule d env (beforeModule r d h w)).1).events ++ cev =
            (commit r d c (loadModule d env (beforeModule r d h w)).1).events ++ cev2 := by
          rw [← hcev, ← hcev2]; rfl
        exact List.append_cancel_left this
      subst hsame
      simp only [List.mem_append, List.mem_singleton] at he
      rcases he with (he | he) | he
      · exact Or.inl (hmevp e he)
      · exact Or.inr (Or.inl he)
      · exact Or.inr (Or.inr (hcevp2 e he))

/-! ## Lemmas: replaying events, counting links -/

theorem replay_append (a b : List Event) (l : List Link) :
    replay (a ++ b) l = replay b (replay a l) := by
  simp [replay, List.foldl_append]

/-- Steps that leave the links alone and emit no link event keep the record faithful. -/
theorem tracks_of_neutral (l0 : List Link) (m m' : Machine) (evs : List Event)
    (h : Tracks l0 m) (hl : m'.world.links = m.world.links) (he : m'.events = m.events ++ evs)
    (hn : ∀ e ∈ evs, ∀ l, applyEvent l e = l) : Tracks l0 m' := by
  unfold Tracks at *
  rw [hl, he, replay_append, ← h]
  clear he hl h
  induction evs with
  | nil => rfl
  | cons e t ih =>
    have h1 : applyEvent m.world.links e = m.world.links := hn e (by simp) _
    have h2 := ih (fun e he => hn e (by simp [he]))
    simp only [replay, List.foldl_cons, h1] at h2 ⊢
    exact h2

theorem tracks_loadCss (l0 : List Link) (href : String) (m m1 : Machine) (h : Tracks l0 m)
    (hl : loadCss href m = some m1) : Tracks l0 m1 := by
  unfold loadCss at hl
  split at hl
  · cases hl
  · cases hl; exact h
  · cases hl
    unfold Tracks at *
    simp only [replay_append, ← h]
    rfl

theorem tracks_unloadCss (l0 : List Link) (href : String) (m m1 : Machine) (h : Tracks l0 m)
    (hl : unloadCss href m = some m1) : Tracks l0 m1 := by
  unfold unloadCss at hl
  split at hl
  · cases hl
  · cases hl
    unfold Tracks at *
    simp only [replay_append, ← h]
    rfl
  · cases hl; exact h

theorem tracks_preloadCss (l0 : List Link) (css : List String) :
    ∀ m acc, Tracks l0 m →
      (∀ m1, preloadCss css m acc = .error m1 → Tracks l0 m1) ∧
      (∀ m1 next, preloadCss css m acc = .ok (m1, next) → Tracks l0 m1) := by
  induction css with
  | nil =>
    intro m acc hm
    constructor
    · intro m1 h; simp [preloadCss] at h
    · intro m1 next h
      simp only [preloadCss, Except.ok.injEq, Prod.mk.injEq] at h
      rw [← h.1]; exact hm
  | cons a t ih =>
    intro m acc hm
    cases hl : loadCss a m with
    | none =>
      constructor
      · intro m1 h
        simp only [preloadCss, hl, Except.error.injEq] at h
        rw [← h]; exact hm
      · intro m1 next h
        simp [preloadCss, hl] at h
    | some m2 =>
      obtain ⟨ihe, iho⟩ := ih m2 (acc ++ [a]) (tracks_loadCss l0 a m m2 hm hl)
      constructor
      · intro m1 h
        simp only [preloadCss, hl] at h
        exact ihe m1 h
      · intro m1 next h
        simp only [preloadCss, hl] at h
        exact iho m1 next h

theorem tracks_cleanupOldCss (l0 : List Link) (next prev : List String) :
    ∀ m, Tracks l0 m → Tracks l0 (machineOf (cleanupOldCss next prev m)) := by
  induction prev with
  | nil => intro m hm; simpa [cleanupOldCss, machineOf] using hm
  | cons a t ih =>
    intro m hm
    by_cases ha : a ∈ next
    · have e : cleanupOldCss next (a :: t) m = cleanupOldCss next t m := by
        simp [cleanupOldCss, ha]
      rw [e]; exact ih m hm
    · cases hu : unloadCss a m with
      | none =>
        have e : cleanupOldCss next (a :: t) m = .error m := by
          simp [cleanupOldCss, ha, hu]
        rw [e]; exact hm
      | some m2 =>
        have e : cleanupOldCss next (a :: t) m = cleanupOldCss next t m2 := by
          simp [cleanupOldCss, ha, hu]
        rw [e]
        exact ih m2 (tracks_unloadCss l0 a m m2 hm hu)

/-- The events of a call, replayed on the links it started from, give the links it leaves:
the events are a faithful record of what the call does to the links, however it ends and
whatever the hrefs are. -/
theorem loadView_replay (tbl : RouteTable) (r : String) (env : Env) (w : World) :
    (loadView tbl r env w).world.links = replay (loadView tbl r env w).events w.links := by
  have h0 : Tracks w.links { world := w, events := [] } := rfl
  cases hl : tbl.lookup r with
  | none => rw [loadView_not_own tbl r env w hl]; rfl
  | some d =>
    cases hp : preloadCss d.css { world := w, events := [] } [] with
    | error m =>
      rw [loadView_preload_error tbl r env w d m hl hp]
      exact (tracks_preloadCss w.links d.css _ _ h0).1 m hp
    | ok res =>
      obtain ⟨m1, next⟩ := res
      rw [loadView_preload_ok tbl r env w d m1 next hl hp]
      have h1 : Tracks w.links m1 := (tracks_preloadCss w.links d.css _ _ h0).2 m1 next hp
      unfold afterPreload
      cases hf : env.fetch d.html with
      | rejected => exact h1
      | notOk =>
        exact tracks_of_neutral w.links _ _ [.appReplaced (failureMessage r)] h1 rfl rfl
          (by simp [applyEvent])
      | ok nextHtml =>
        simp only []
        have h2 : Tracks w.links (beforeModuleAt r nextHtml w m1) := by
          cases hc : w.currentRoute.cleanup with
          | none =>
            refine tracks_of_neutral w.links m1 _ [.appReplaced nextHtml, .activeTabSet r] h1
              (by simp [beforeModuleAt, setActiveTab, setAppInnerHTML, cleanupOldView, hc])
              (by simp [beforeModuleAt, setActiveTab, setAppInnerHTML, cleanupOldView, hc]) ?_
            intro e he l
            simp at he
            rcases he with he | he <;> subst he <;> rfl
          | some f =>
            refine tracks_of_neutral w.links m1 _
              [.cleanupInvoked (f.call m1.world.appInnerHTML m1.world.page).threw,
                .appReplaced nextHtml, .activeTabSet r] h1
              (by simp [beforeModuleAt, setActiveTab, setAppInnerHTML, cleanupOldView, hc])
              (by simp [beforeModuleAt, setActiveTab, setAppInnerHTML, cleanupOldView, hc]) ?_
            intro e he l
            simp at he
            rcases he with he | he | he <;> subst he <;> rfl
        obtain ⟨mev, hmev, hmevp⟩ := loadModule_events d env (beforeModuleAt r nextHtml w m1)
        have h3 : Tracks w.links (loadModule d env (beforeModuleAt r nextHtml w m1)).1 :=
          tracks_of_neutral w.links _ _ mev h2 (loadModule_frame d env _).2.1 hmev
            (fun e he l => by rw [hmevp e he]; rfl)
        cases hm : (loadModule d env (beforeModuleAt r nextHtml w m1)).2 with
        | none => exact h3
        | some c =>
          have h4 : Tracks w.links
              (commit r d c (loadModule d env (beforeModuleAt r nextHtml w m1)).1) :=
            tracks_of_neutral w.links _ _ [.routeCommitted r] h3 rfl rfl (by simp [applyEvent])
          exact tracks_cleanupOldCss w.links d.css w.currentRoute.cssHrefs _ h4

/-- Events that neither append a link tagged `H` nor remove `H` keep the number of links
tagged `H`. -/
theorem attachedCount_replay (H : String) (evs : List Event)
    (hq : ∀ e ∈ evs, e ≠ .linkRemoved H ∧ ∀ x, e = .linkAppended x → x.dataViewCss ≠ H) :
    ∀ l, attachedCount H (replay evs l) = attachedCount H l := by
  induction evs with
  | nil => intro l; rfl
  | cons e t ih =>
    intro l
    have e1 : replay (e :: t) l = replay t (applyEvent l e) := rfl
    rw [e1, ih (fun e he => hq e (by simp [he]))]
    obtain ⟨hr, ha⟩ := hq e (by simp)
    cases e with
    | linkAppended x =>
      have : (x.dataViewCss == H) = false := by simpa using ha x rfl
      simp [applyEvent, attachedCount, List.countP_append, this]
    | linkRemoved h =>
      have hne : h ≠ H := fun e => hr (by rw [e])
      simp only [applyEvent, attachedCount]
      apply countP_eraseP_other
      intro a ha'
      have : a.dataViewCss = h := by simpa using ha'
      simpa [this] using hne
    | _ => rfl

/-- A completed call on a view with plain css hrefs: its fetch succeeded and its module step
handed back a cleanup value. -/
theorem completed_steps (tbl : RouteTable) (route : String) (env : Env) (w : World)
    (d : RouteDefinition) (hl : tbl.lookup route = some d)
    (hd : ∀ x ∈ d.css, plainHref x = true)
    (hc : (loadView tbl route env w).outcome = .completed) :
    ∃ nextHtml c, env.fetch d.html = .ok nextHtml ∧
      (loadModule d env (beforeModule route d nextHtml w)).2 = some c := by
  cases hf : env.fetch d.html with
  | rejected => rw [loadView_rejected tbl route env w d hl hd hf] at hc; cases hc
  | notOk => rw [loadView_notOk tbl route env w d hl hd hf] at hc; cases hc
  | ok nextHtml =>
    cases hm : (loadModule d env (beforeModule route d nextHtml w)).2 with
    | none => rw [loadView_module_threw tbl route env w d nextHtml hl hd hf hm] at hc; cases hc
    | some c => exact ⟨nextHtml, c, rfl, hm⟩

/-- The number of links per href after a completed call, all hrefs being plain. -/
theorem completed_count (tbl : RouteTable) (r : String) (env : Env) (w : World)
    (d : RouteDefinition) (hkey : tbl.lookup r = some d)
    (hplain : ∀ x ∈ d.css, plainHref x = true)
    (hprev : ∀ x ∈ w.currentRoute.cssHrefs, plainHref x = true)
    (hc : (loadView tbl r env w).outcome = .completed) (h : String) :
    attachedCount h (loadView tbl r env w).world.links =
      if h ∈ d.css then max 1 (attachedCount h w.links)
      else attachedCount h w.links - w.currentRoute.cssHrefs.count h := by
  obtain ⟨nextHtml, c, hf, hm⟩ := completed_steps tbl r env w d hkey hplain hc
  rw [(completed_world tbl r env w d nextHtml c hkey hplain hprev hf hm).2.2.2,
    attachedCount_detachStale]
  have e : (commit r d c (loadModule d env (beforeModule r d nextHtml w)).1).world.links =
      (preloadMachine d.css { world := w, events := [] }).world.links := by
    show (loadModule d env (beforeModule r d nextHtml w)).1.world.links = _
    rw [(loadModule_frame d env _).2.1, (beforeModule_world r d nextHtml w).2.2.1]
  rw [e, attachedCount_preloadMachine]
  by_cases hh : h ∈ d.css <;> simp [hh]

/-- A completed call commits the css list of its route. -/
theorem completed_cssHrefs (tbl : RouteTable) (r : String) (env : Env) (w : World)
    (d : RouteDefinition) (hkey : tbl.lookup r = some d)
    (hplain : ∀ x ∈ d.css, plainHref x = true)
    (hc : (loadView tbl r env w).outcome = .completed) :
    (loadView tbl r env w).world.currentRoute.cssHrefs = d.css := by
  obtain ⟨nextHtml, c, hf, hm⟩ := completed_steps tbl r env w d hkey hplain hc
  rw [(committed_world tbl r env w d nextHtml c hkey hplain hf hm).2.1]

/-! ## Lemmas: what a call depends on -/

theorem preloadMachine_links_congr (css : List String) :
    ∀ m m' : Machine, m.world.links = m'.world.links →
      (preloadMachine css m).world.links = (preloadMachine css m').world.links := by
  induction css with
  | nil => intro m m' h; simpa [preloadMachine] using h
  | cons a t ih =>
    intro m m' h
    have e : ∀ x, preloadMachine (a :: t) x = preloadMachine t (attach a x) := by
      intro x; simp [preloadMachine]
    rw [e, e]
    apply ih
    rw [attach_links, attach_links, h]

theorem unloadCss_links_congr (href : String) (m m' : Machine)
    (h : m.world.links = m'.world.links) :
    (unloadCss href m).isSome = (unloadCss href m').isSome ∧
    ∀ m1 m1', unloadCss href m = some m1 → unloadCss href m' = some m1' →
      m1.world.links = m1'.world.links := by
  unfold unloadCss
  rw [h]
  cases querySelectorViewCss m'.world.links href with
  | threw => simp
  | result l =>
    cases l with
    | none =>
      refine ⟨rfl, ?_⟩
      intro m1 m1' h1 h1'
      cases h1; cases h1'
      exact h
    | some l =>
      refine ⟨rfl, ?_⟩
      intro m1 m1' h1 h1'
      cases h1; cases h1'
      simp [h]

/-- The teardown loop reads the state only through the links. -/
theorem cleanupOldCss_links_congr (next prev : List String) :
    ∀ m m' : Machine, m.world.links = m'.world.links →
      ranThrough (cleanupOldCss next prev m) = ranThrough (cleanupOldCss next prev m') ∧
      (machineOf (cleanupOldCss next prev m)).world.links =
        (machineOf (cleanupOldCss next prev m')).world.links := by
  induction prev with
  | nil => intro m m' h; simpa [cleanupOldCss, machineOf, ranThrough] using h
  | cons a t ih =>
    intro m m' h
    by_cases ha : a ∈ next
    · have e : ∀ x, cleanupOldCss next (a :: t) x = cleanupOldCss next t x := by
        intro x; simp [cleanupOldCss, ha]
      rw [e, e]
      exact ih m m' h
    · obtain ⟨hs, hl⟩ := unloadCss_links_congr a m m' h
      cases hu : unloadCss a m with
      | none =>
        have hu' : unloadCss a m' = none := by
          rw [hu] at hs
          cases hx : unloadCss a m' with
          | none => rfl
          | some y => rw [hx] at hs; cases hs
        have e1 : cleanupOldCss next (a :: t) m = .error m := by
          simp [cleanupOldCss, ha, hu]
        have e2 : cleanupOldCss next (a :: t) m' = .error m' := by
          simp [cleanupOldCss, ha, hu']
        rw [e1, e2]
        exact ⟨rfl, h⟩
      | some m2 =>
        cases hu' : unloadCss a m' with
        | none => rw [hu, hu'] at hs; cases hs
        | some m2' =>
          have e1 : cleanupOldCss next (a :: t) m = cleanupOldCss next t m2 := by
            simp [cleanupOldCss, ha, hu]
          have e2 : cleanupOldCss next (a :: t) m' = cleanupOldCss next t m2' := by
            simp [cleanupOldCss, ha, hu']
          rw [e1, e2]
          exact ih m2 m2' (hl m2 m2' hu hu')

/-- The module step reads the state only through the root content and the page state. -/
theorem loadModule_congr (d : RouteDefinition) (env : Env) (m m' : Machine)
    (h : m.world.appInnerHTML = m'.world.appInnerHTML) (hp : m.world.page = m'.world.page) :
    (loadModule d env m).2 = (loadModule d env m').2 ∧
    (loadModule d env m).1.world.appInnerHTML = (loadModule d env m').1.world.appInnerHTML ∧
    (loadModule d env m).1.world.page = (loadModule d env m').1.world.page := by
  unfold loadModule
  rw [h, hp]
  cases d.module with
  | none => simpa using ⟨h, hp⟩
  | some path =>
    by_cases hq : (path == "") = true
    · simpa [hq] using ⟨h, hp⟩
    · simp only [hq]
      cases env.importModule path with
      | rejected => simpa using ⟨h, hp⟩
      | resolved mod =>
        obtain ⟨init⟩ := mod
        cases init with
        | none => simpa using ⟨h, hp⟩
        | some init =>
          simp only []
          cases h2 : (init m'.world.appInnerHTML m'.world.page).outcome with
          | threw => simp
          | returned v => cases v <;> simp

/-- Past a successful fetch, a call on a view with plain css hrefs depends on the prior state
only through the attached links, the previous css list and the page state the registered
cleanup leaves. -/
theorem loadView_congr (tbl : RouteTable) (r : String) (env : Env) (w w' : World)
    (d : RouteDefinition) (h : String) (hkey : tbl.lookup r = some d)
    (hplain : ∀ x ∈ d.css, plainHref x = true)
    (hfetch : env.fetch d.html = .ok h) (hl : w.links = w'.links)
    (hcss : w.currentRoute.cssHrefs = w'.currentRoute.cssHrefs)
    (hpage : (cleanupOldView w.currentRoute.cleanup { world := w, events := [] }).world.page =
      (cleanupOldView w'.currentRoute.cleanup { world := w', events := [] }).world.page) :
    (loadView tbl r env w).outcome = (loadView tbl r env w').outcome ∧
    (loadView tbl r env w).world.appInnerHTML = (loadView tbl r env w').world.appInnerHTML ∧
    (loadView tbl r env w).world.links = (loadView tbl r env w').world.links ∧
    (loadView tbl r env w).world.page = (loadView tbl r env w').world.page ∧
    ((loadView tbl r env w).outcome = .completed →
      (loadView tbl r env w).world.currentRoute = (loadView tbl r env w').world.currentRoute) := by
  have hb := beforeModule_world r d h w
  have hb' := beforeModule_world r d h w'
  have hcg := loadModule_congr d env (beforeModule r d h w) (beforeModule r d h w')
    (hb.1.trans hb'.1.symm) (by rw [hb.2.2.2, hb'.2.2.2, hpage])
  have hpl : (preloadMachine d.css { world := w, events := [] }).world.links =
      (preloadMachine d.css { world := w', events := [] }).world.links :=
    preloadMachine_links_congr d.css _ _ hl
  have hml : (loadModule d env (beforeModule r d h w)).1.world.links =
      (loadModule d env (beforeModule r d h w')).1.world.links := by
    rw [(loadModule_frame d env _).2.1, (loadModule_frame d env _).2.1, hb.2.2.1, hb'.2.2.1, hpl]
  cases hm : (loadModule d env (beforeModule r d h w)).2 with
  | none =>
    have hm' : (loadModule d env (beforeModule r d h w')).2 = none := by rw [← hcg.1, hm]
    rw [loadView_module_threw tbl r env w d h hkey hplain hfetch hm,
      loadView_module_threw tbl r env w' d h hkey hplain hfetch hm']
    exact ⟨rfl, hcg.2.1, hml, hcg.2.2, fun hc => by cases hc⟩
  | some c =>
    have hm' : (loadModule d env (beforeModule r d h w')).2 = some c := by rw [← hcg.1, hm]
    obtain ⟨_, a2, a3, a4⟩ := committed_world tbl r env w d h c hkey hplain hfetch hm
    obtain ⟨_, b2, b3, b4⟩ := committed_world tbl r env w' d h c hkey hplain hfetch hm'
    have hcl := cleanupOldCss_links_congr d.css w.currentRoute.cssHrefs
      (commit r d c (loadModule d env (beforeModule r d h w)).1)
      (commit r d c (loadModule d env (beforeModule r d h w')).1) hml
    refine ⟨?_, ?_, ?_, ?_, fun _ => a2.trans b2.symm⟩
    · rw [loadView_committed tbl r env w d h c hkey hplain hfetch hm,
        loadView_committed tbl r env w' d h c hkey hplain hfetch hm', ← hcss]
      simp only [hcl.1]
    · rw [a3, b3]; exact hcg.2.1
    · rw [loadView_committed tbl r env w d h c hkey hplain hfetch hm,
        loadView_committed tbl r env w' d h c hkey hplain hfetch hm', ← hcss]
      exact hcl.2
    · rw [a4, b4]; exact hcg.2.2

/-! ## Claims about the cleanup callback -/

/-- C9: for a key `r` of a table whose css hrefs need no escaping (as in the shipped table),
with a fetch that succeeds with text `h`, from any prior state whose registered cleanup is a
function `c`.  The call invokes `c` exactly once, right before the app root content is
replaced by `h`: its events hold one cleanup invocation, directly followed by the swap, and
the call ends exactly as a call made after running `c` once by hand on the old root and page
state, with no cleanup registered.  A throw of `c` is discarded: a callback `c'` that leaves
the same page state, whether it throws or returns normally, gives the same ending, the same
app root content, the same attached links, the same page state and, when the call
completes, the same `currentRoute`. -/
theorem cleanup_throw_discarded (tbl : RouteTable) (r : String) (d : RouteDefinition) (env : Env)
    (h : String) (w : World) (c c' : Cleanup) (hkey : tbl.lookup r = some d)
    (hplain : ∀ x ∈ d.css, plainHref x = true)
    (hfetch : env.fetch d.html = .ok h) (hc : w.currentRoute.cleanup = some c)
    (hsame : (c'.call w.appInnerHTML w.page).page = (c.call w.appInnerHTML w.page).page) :
    (∃ pre post, (loadView tbl r env w).events =
        pre ++ .cleanupInvoked (c.call w.appInnerHTML w.page).threw :: .appReplaced h :: post ∧
      (∀ t, Event.cleanupInvoked t ∉ pre) ∧ (∀ t, Event.cleanupInvoked t ∉ post) ∧
      (∀ x, Event.appReplaced x ∉ pre)) ∧
    ((loadView tbl r env w).outcome =
        (loadView tbl r env
          { w with
            appInnerHTML := (c.call w.appInnerHTML w.page).root,
            page := (c.call w.appInnerHTML w.page).page,
            currentRoute := { w.currentRoute with cleanup := none } }).outcome ∧
      (loadView tbl r env w).world.appInnerHTML =
        (loadView tbl r env
          { w with
            appInnerHTML := (c.call w.appInnerHTML w.page).root,
            page := (c.call w.appInnerHTML w.page).page,
            currentRoute := { w.currentRoute with cleanup := none } }).world.appInnerHTML ∧
      (loadView tbl r env w).world.links =
        (loadView tbl r env
          { w with
            appInnerHTML := (c.call w.appInnerHTML w.page).root,
            page := (c.call w.appInnerHTML w.page).page,
            currentRoute := { w.currentRoute with cleanup := none } }).world.links ∧
      (loadView tbl r env w).world.page =
        (loadView tbl r env
          { w with
            appInnerHTML := (c.call w.appInnerHTML w.page).root,
            page := (c.call w.appInnerHTML w.page).page,
            currentRoute := { w.currentRoute with cleanup := none } }).world.page ∧
      ((loadView tbl r env w).outcome = .completed →
        (loadView tbl r env w).world.currentRoute =
          (loadView tbl r env
            { w with
              appInnerHTML := (c.call w.appInnerHTML w.page).root,
              page := (c.call w.appInnerHTML w.page).page,
              currentRoute := { w.currentRoute with cleanup := none } }).world.currentRoute)) ∧
    ((loadView tbl r env w).outcome =
        (loadView tbl r env
          { w with currentRoute := { w.currentRoute with cleanup := some c' } }).outcome ∧
      (loadView tbl r env w).world.appInnerHTML =
        (loadView tbl r env
          { w with currentRoute := { w.currentRoute with cleanup := some c' } }).world.appInnerHTML ∧
      (loadView tbl r env w).world.links =
        (loadView tbl r env
          { w with currentRoute := { w.currentRoute with cleanup := some c' } }).world.links ∧
      (loadView tbl r env w).world.page =
        (loadView tbl r env
          { w with currentRoute := { w.currentRoute with cleanup := some c' } }).world.page ∧
      ((loadView tbl r env w).outcome = .completed →
        (loadView tbl r env w).world.currentRoute =
          (loadView tbl r env
            { w with currentRoute := { w.currentRoute with cleanup := some c' } }
          ).world.currentRoute)) := by
  refine ⟨?_, ?_, ?_⟩
  · obtain ⟨pre, post, hev, hpre, hpost, _⟩ :=
      loadView_ok_events tbl r env w d h hkey hplain hfetch
    rw [hc] at hev
    refine ⟨pre, .activeTabSet r :: post, by simpa using hev, ?_, ?_, ?_⟩
    · intro t ht
      obtain ⟨x, _, hx, _⟩ := hpre _ ht
      cases hx
    · intro t ht
      rcases List.mem_cons.1 ht with ht | ht
      · cases ht
      · rcases hpost _ ht with hx | hx | ⟨x, hx⟩ <;> cases hx
    · intro x ht
      obtain ⟨y, _, hy, _⟩ := hpre _ ht
      cases hy
  · exact loadView_congr tbl r env w _ d h hkey hplain hfetch rfl rfl
      (by simp [cleanupOldView, hc])
  · exact loadView_congr tbl r env w _ d h hkey hplain hfetch rfl rfl
      (by simp [cleanupOldView, hc, hsame])

/-- Witness for C9: leaving the achievements view, whose cleanup notes that it ran and then
throws; the note is in the page state afterwards, once. -/
theorem cleanup_throw_discarded_witness :
    routes.lookup "/about" = some { html := "views/about.html", css := [], module := none } ∧
    renderingEnv.fetch "views/about.html" = .ok "<h1>view</h1>" ∧
    achievementsWorld.currentRoute.cleanup = some throwingCleanup ∧
    (throwingCleanup.call achievementsWorld.appInnerHTML achievementsWorld.page).threw = true ∧
    (quietCleanup.call achievementsWorld.appInnerHTML achievementsWorld.page).threw = false ∧
    (loadView routes "/about" renderingEnv achievementsWorld).outcome = .completed ∧
    (loadView routes "/about" renderingEnv achievementsWorld).world.page =
      ["listeners attached", "listeners removed"] ∧
    (loadView routes "/about" renderingEnv achievementsWorld).world.page =
      (loadView routes "/about" renderingEnv
        { achievementsWorld with
          currentRoute := { achievementsWorld.currentRoute with cleanup := some quietCleanup } }
      ).world.page :=
  ⟨rfl, rfl, rfl, rfl, rfl, rfl, rfl,
    (cleanup_throw_discarded routes "/about" _ renderingEnv "<h1>view</h1>" achievementsWorld
      throwingCleanup quietCleanup rfl (by decide) rfl rfl rfl).2.2.2.2.2.1⟩

/-! ## Claims about the asset loader -/

/-- C8 (the code departs from the claim): on a document without tagged links, `loadCss` called
twice with the href `css\a.css` leaves two links tagged with it, and `unloadCss` then removes
none.  The href goes into the selector unescaped, so `\a` reads as the escape of U+000A and
the lookup asks for another value than the one the link was tagged with.  With the href
`a"b.css` the selector is invalid and `loadCss` throws. -/
theorem loadCss_twice_escaped :
    selectorValue "css\\a.css" = some "css\n.css" ∧
    (loadCss "css\\a.css" startMachine).map
      (fun m => attachedCount "css\\a.css" m.world.links) = some 1 ∧
    ((loadCss "css\\a.css" startMachine).bind (loadCss "css\\a.css")).map
      (fun m => attachedCount "css\\a.css" m.world.links) = some 2 ∧
    (((loadCss "css\\a.css" startMachine).bind (loadCss "css\\a.css")).bind
      (unloadCss "css\\a.css")).map
      (fun m => attachedCount "css\\a.css" m.world.links) = some 2 ∧
    selectorValue "a\"b.css" = none ∧
    (loadCss "a\"b.css" startMachine).isNone = true := by
  decide

theorem attach_of_found (href : String) (m : Machine) (l : Link)
    (h : findTagged m.world.links href = some l) : attach href m = m := by
  unfold attach
  simp [h]

/-- For an href that needs no escaping, in a document holding at most one link per href:
`loadCss href` leaves exactly one link tagged `href`, calling it again changes nothing, and
both `loadCss` and `unloadCss` (on any such href) keep the document at no more than one link
per href. -/
theorem loadCss_plain_idempotent (href : String) (m : Machine)
    (hplain : plainHref href = true) (hu : LinksUnique m.world.links) :
    loadCss href m = some (attach href m) ∧
    attachedCount href (attach href m).world.links = 1 ∧
    loadCss href (attach href m) = some (attach href m) ∧
    (∀ h, plainHref h = true →
      loadCss h m = some (attach h m) ∧ LinksUnique (attach h m).world.links) ∧
    (∀ h, plainHref h = true →
      unloadCss h m = some (detach h m) ∧ LinksUnique (detach h m).world.links) := by
  rw [linksUnique_iff] at hu
  have h1 : attachedCount href (attach href m).world.links = 1 := by
    rw [attachedCount_attach, if_pos rfl]
    have := hu href
    omega
  refine ⟨loadCss_plain href m hplain, h1, ?_, ?_, ?_⟩
  · rw [loadCss_plain href _ hplain]
    have hne : findTagged (attach href m).world.links href ≠ none := by
      rw [Ne, findTagged_eq_none_iff, h1]
      decide
    cases hq : findTagged (attach href m).world.links href with
    | none => exact absurd hq hne
    | some l => rw [attach_of_found href (attach href m) l hq]
  · intro h hp
    refine ⟨loadCss_plain h m hp, ?_⟩
    rw [linksUnique_iff]
    intro x
    rw [attachedCount_attach]
    have := hu x
    split <;> omega
  · intro h hp
    refine ⟨unloadCss_plain h m hp, ?_⟩
    rw [linksUnique_iff]
    intro x
    rw [attachedCount_detach]
    have := hu x
    split <;> omega

/-! ## Claims about consecutive calls -/

/-- C4 (the code departs from the claim): on a table whose route `/a` lists the href
`css\a.css`, a completed `loadView("/a")` followed by a completed `loadView("/a")` appends a
second link for that href: the unescaped selector of the second call does not find the link
the first call attached. -/
theorem shared_escaped_href_appended_twice :
    backslashTable.lookup "/a" =
      some { html := "views/a.html", css := ["css\\a.css"], module := none } ∧
    (loadView backslashTable "/a" renderingEnv startWorld).outcome = .completed ∧
    attachedCount "css\\a.css"
      (loadView backslashTable "/a" renderingEnv startWorld).world.links = 1 ∧
    (loadView backslashTable "/a" renderingEnv
      (loadView backslashTable "/a" renderingEnv startWorld).world).outcome = .completed ∧
    Event.linkAppended { rel := "stylesheet", href := "css\\a.css", dataViewCss := "css\\a.css" } ∈
      (loadView backslashTable "/a" renderingEnv
        (loadView backslashTable "/a" renderingEnv startWorld).world).events ∧
    attachedCount "css\\a.css"
      (loadView backslashTable "/a" renderingEnv
        (loadView backslashTable "/a" renderingEnv startWorld).world).world.links = 2 := by
  decide

/-- C5 (the code departs from the claim): on a table whose route `/a` lists the href
`css\a.css` and whose route `/b` lists no css, after a completed `loadView("/a")` followed
by a completed `loadView("/b")` the link for `css\a.css` is still attached: the unescaped
selector of `unloadCss` does not find it. -/
theorem disjoint_escaped_href_left_attached :
    backslashTable.lookup "/a" =
      some { html := "views/a.html", css := ["css\\a.css"], module := none } ∧
    backslashTable.lookup "/b" = some { html := "views/b.html", css := [], module := none } ∧
    (loadView backslashTable "/a" renderingEnv startWorld).outcome = .completed ∧
    (loadView backslashTable "/b" renderingEnv
      (loadView backslashTable "/a" renderingEnv startWorld).world).outcome = .completed ∧
    (loadView backslashTable "/b" renderingEnv
      (loadView backslashTable "/a" renderingEnv startWorld).world).world.currentRoute.cssHrefs
      = [] ∧
    attachedCount "css\\a.css"
      (loadView backslashTable "/b" renderingEnv
        (loadView backslashTable "/a" renderingEnv startWorld).world).world.links = 1 := by
  decide

/-- For hrefs that need no escaping: let `A` and `B` be keys of a table (possibly the same
key) whose css lists share the href `H`, and let a completed `loadView(A)` be followed by a
completed `loadView(B)`.  Then a link tagged `H` is attached when the second call starts;
after every initial run of the events of the second call the number of links tagged `H` is
what it was at the start; and among these events there is no removal of `H` and no append of
a link tagged `H`. -/
theorem shared_plain_href_stays_attached (tbl : RouteTable) (A B : String) (envA envB : Env)
    (w : World) (H : String) (dA dB : RouteDefinition)
    (hA : tbl.lookup A = some dA) (hB : tbl.lookup B = some dB)
    (hpA : ∀ x ∈ dA.css, plainHref x = true) (hpB : ∀ x ∈ dB.css, plainHref x = true)
    (hprev : ∀ x ∈ w.currentRoute.cssHrefs, plainHref x = true)
    (hHA : H ∈ dA.css) (hHB : H ∈ dB.css)
    (h1 : (loadView tbl A envA w).outcome = .completed)
    (h2 : (loadView tbl B envB (loadView tbl A envA w).world).outcome = .completed) :
    1 ≤ attachedCount H (loadView tbl A envA w).world.links ∧
    (∀ pre, pre <+: (loadView tbl B envB (loadView tbl A envA w).world).events →
      attachedCount H (replay pre (loadView tbl A envA w).world.links) =
        attachedCount H (loadView tbl A envA w).world.links) ∧
    Event.linkRemoved H ∉ (loadView tbl B envB (loadView tbl A envA w).world).events ∧
    (∀ l, l.dataViewCss = H →
      Event.linkAppended l ∉ (loadView tbl B envB (loadView tbl A envA w).world).events) := by
  have c1 : 1 ≤ attachedCount H (loadView tbl A envA w).world.links := by
    rw [completed_count tbl A envA w dA hA hpA hprev h1 H, if_pos hHA]
    exact le_max_left _ _
  have hprev1 : ∀ x ∈ (loadView tbl A envA w).world.currentRoute.cssHrefs, plainHref x = true := by
    rw [completed_cssHrefs tbl A envA w dA hA hpA h1]
    exact hpA
  obtain ⟨nextHtml, _, hf, _⟩ := completed_steps tbl B envB _ dB hB hpB h2
  obtain ⟨pre, post, hev, hpre, _, hpost⟩ :=
    loadView_ok_events tbl B envB (loadView tbl A envA w).world dB nextHtml hB hpB hf
  have hpost := hpost hprev1
  have hq : ∀ e ∈ (loadView tbl B envB (loadView tbl A envA w).world).events,
      e ≠ .linkRemoved H ∧ ∀ x, e = .linkAppended x → x.dataViewCss ≠ H := by
    intro e he
    rw [hev] at he
    simp only [List.mem_append, List.mem_cons] at he
    rcases he with (he | he) | he | he | he
    · obtain ⟨x, _, hx, hx0⟩ := hpre e he
      subst hx
      refine ⟨by simp, ?_⟩
      intro y hy hH
      have : y.dataViewCss = x := by
        have := Event.linkAppended.inj hy
        rw [← this]
      rw [this] at hH
      subst hH
      omega
    · cases hc : (loadView tbl A envA w).world.currentRoute.cleanup with
      | none => simp [hc] at he
      | some f =>
        simp [hc] at he
        subst he
        exact ⟨by simp, by simp⟩
    · subst he; exact ⟨by simp, by simp⟩
    · subst he; exact ⟨by simp, by simp⟩
    · rcases hpost e he with he | he | ⟨x, _, hxn, he⟩
      · subst he; exact ⟨by simp, by simp⟩
      · subst he; exact ⟨by simp, by simp⟩
      · subst he
        refine ⟨?_, by simp⟩
        intro hcontra
        have := Event.linkRemoved.inj hcontra
        exact hxn (this ▸ hHB)
  refine ⟨c1, ?_, (fun hm => (hq _ hm).1 rfl), ?_⟩
  · intro p hp
    exact attachedCount_replay H p (fun e he => hq e (hp.subset he)) _
  · intro l hl hm
    exact (hq _ hm).2 l rfl hl

/-- For hrefs that need no escaping: let `A` and `B` be keys of a table whose css lists have
no href in common, and let the document hold at most one link per href.  After a completed
`loadView(A)` followed by a completed `loadView(B)`, no href of `A` has an attached link and
every href of `B` has exactly one. -/
theorem disjoint_plain_css_swapped (tbl : RouteTable) (A B : String) (envA envB : Env)
    (w : World) (dA dB : RouteDefinition)
    (hA : tbl.lookup A = some dA) (hB : tbl.lookup B = some dB)
    (hpA : ∀ x ∈ dA.css, plainHref x = true) (hpB : ∀ x ∈ dB.css, plainHref x = true)
    (hprev : ∀ x ∈ w.currentRoute.cssHrefs, plainHref x = true)
    (hdisj : ∀ h ∈ dA.css, h ∉ dB.css) (hu : LinksUnique w.links)
    (h1 : (loadView tbl A envA w).outcome = .completed)
    (h2 : (loadView tbl B envB (loadView tbl A envA w).world).outcome = .completed) :
    (∀ h ∈ dA.css,
      attachedCount h (loadView tbl B envB (loadView tbl A envA w).world).world.links = 0) ∧
    (∀ h ∈ dB.css,
      attachedCount h (loadView tbl B envB (loadView tbl A envA w).world).world.links = 1) := by
  rw [linksUnique_iff] at hu
  have hcss := completed_cssHrefs tbl A envA w dA hA hpA h1
  have hprev1 : ∀ x ∈ (loadView tbl A envA w).world.currentRoute.cssHrefs, plainHref x = true := by
    rw [hcss]; exact hpA
  have hc1 := completed_count tbl A envA w dA hA hpA hprev h1
  have hc2 := completed_count tbl B envB _ dB hB hpB hprev1 h2
  constructor
  · intro h hh
    rw [hc2 h, if_neg (hdisj h hh), hcss, hc1 h, if_pos hh]
    have := hu h
    have hpos : 0 < dA.css.count h := List.count_pos_iff.2 hh
    omega
  · intro h hh
    rw [hc2 h, if_pos hh, hc1 h]
    have := hu h
    split <;> omega

/-! ## Claims about sequences of completed calls -/

theorem runCalls_append (tbl : RouteTable) (calls : List (String × Env)) (r : String) (env : Env)
    (w : World) :
    runCalls tbl (calls ++ [(r, env)]) w = (loadView tbl r env (runCalls tbl calls w)).world := by
  simp [runCalls, List.foldl_append]

theorem outcomes_append (tbl : RouteTable) (calls : List (String × Env)) (r : String) (env : Env) :
    ∀ w, outcomes tbl (calls ++ [(r, env)]) w =
      outcomes tbl calls w ++ [(loadView tbl r env (runCalls tbl calls w)).outcome] := by
  induction calls with
  | nil => intro w; simp [outcomes, runCalls]
  | cons call rest ih =>
    intro w
    have e : runCalls tbl (call :: rest) w = runCalls tbl rest (loadView tbl call.1 call.2 w).world := by
      simp [runCalls]
    simp [outcomes, ih, e]

theorem linksMatchRoute_step (tbl : RouteTable) (r : String) (env : Env) (w : World)
    (hplain : plainTable tbl = true)
    (hw : LinksMatchRoute w) (hprev : ∀ x ∈ w.currentRoute.cssHrefs, plainHref x = true)
    (hc : (loadView tbl r env w).outcome = .completed) :
    LinksMatchRoute (loadView tbl r env w).world ∧
    ∀ x ∈ (loadView tbl r env w).world.currentRoute.cssHrefs, plainHref x = true := by
  obtain ⟨d, _, _, hd, hpd, _, _⟩ := completed_inv tbl r env w hplain hc
  have hcss := completed_cssHrefs tbl r env w d hd hpd hc
  refine ⟨?_, by rw [hcss]; exact hpd⟩
  intro h
  rw [hcss, completed_count tbl r env w d hd hpd hprev hc h, hw h]
  by_cases h1 : h ∈ d.css
  · by_cases h2 : h ∈ w.currentRoute.cssHrefs <;> simp [h1, h2]
  · by_cases h2 : h ∈ w.currentRoute.cssHrefs
    · have : 0 < w.currentRoute.cssHrefs.count h := List.count_pos_iff.2 h2
      rw [if_neg h1, if_pos h2, if_neg h1]
      omega
    · simp [h1, h2]

theorem linksMatchRoute_runCalls (tbl : RouteTable) (hplain : plainTable tbl = true)
    (calls : List (String × Env)) :
    ∀ w, LinksMatchRoute w → (∀ x ∈ w.currentRoute.cssHrefs, plainHref x = true) →
      (∀ o ∈ outcomes tbl calls w, o = .completed) →
      LinksMatchRoute (runCalls tbl calls w) := by
  induction calls with
  | nil => intro w hw _ _; simpa [runCalls] using hw
  | cons call rest ih =>
    intro w hw hprev hall
    have e : runCalls tbl (call :: rest) w = runCalls tbl rest (loadView tbl call.1 call.2 w).world := by
      simp [runCalls]
    rw [e]
    have h1 : (loadView tbl call.1 call.2 w).outcome = .completed := hall _ (by simp [outcomes])
    obtain ⟨s1, s2⟩ := linksMatchRoute_step tbl call.1 call.2 w hplain hw hprev h1
    exact ih _ s1 s2 (fun o ho => hall o (by simp [outcomes, ho]))

/-- C10: for a route table whose css hrefs need no escaping (as in the shipped table), start
with no view stylesheet attached and the initial `currentRoute`, and run any finite sequence
of `loadView` calls one after another, all of which complete.  After the last call (hence
after each call, every initial part of such a sequence being one) an href has an attached
link exactly when it is in the css list of the route just loaded, which is also
`currentRoute.cssHrefs`; and no href has more than one link. -/
theorem attached_set_is_route_css (tbl : RouteTable) (calls : List (String × Env)) (r : String)
    (env : Env) (app : String) (tabs : List Tab) (page : PageState)
    (hplain : plainTable tbl = true)
    (hall : ∀ o ∈ outcomes tbl (calls ++ [(r, env)])
      { currentRoute := initialRoute, appInnerHTML := app, links := [], tabs := tabs,
        page := page },
      o = .completed) :
    ∃ d, tbl.lookup r = some d ∧
      (runCalls tbl (calls ++ [(r, env)])
        { currentRoute := initialRoute, appInnerHTML := app, links := [], tabs := tabs,
          page := page }).currentRoute.cssHrefs = d.css ∧
      ∀ h,
        (0 < attachedCount h (runCalls tbl (calls ++ [(r, env)])
          { currentRoute := initialRoute, appInnerHTML := app, links := [], tabs := tabs,
            page := page }).links
          ↔ h ∈ d.css) ∧
        attachedCount h (runCalls tbl (calls ++ [(r, env)])
          { currentRoute := initialRoute, appInnerHTML := app, links := [], tabs := tabs,
            page := page }).links
          ≤ 1 := by
  have h0 : LinksMatchRoute
      { currentRoute := initialRoute, appInnerHTML := app, links := [], tabs := tabs,
        page := page } := by
    intro h; simp [attachedCount, initialRoute]
  have hJ := linksMatchRoute_runCalls tbl hplain _ _ h0 (by simp [initialRoute]) hall
  rw [outcomes_append] at hall
  have hlast : (loadView tbl r env (runCalls tbl calls
      { currentRoute := initialRoute, appInnerHTML := app, links := [], tabs := tabs,
        page := page })).outcome = .completed := hall _ (by simp)
  obtain ⟨d, _, _, hd, hpd, _, _⟩ := completed_inv tbl r env _ hplain hlast
  have hcss := completed_cssHrefs tbl r env _ d hd hpd hlast
  rw [← runCalls_append] at hcss
  refine ⟨d, hd, hcss, ?_⟩
  intro h
  have := hJ h
  rw [hcss] at this
  by_cases hh : h ∈ d.css <;> simp [this, hh]

/-- Witness for C10: `/achievements` then `/about` on the shipped table, both completing. -/
theorem attached_set_is_route_css_witness :
    plainTable routes = true ∧
    (∀ o ∈ outcomes routes ([("/achievements", renderingEnv)] ++ [("/about", renderingEnv)])
      { currentRoute := initialRoute, appInnerHTML := "", links := [], tabs := [], page := [] },
      o = .completed) ∧
    ∃ d, routes.lookup "/about" = some d ∧
      (runCalls routes ([("/achievements", renderingEnv)] ++ [("/about", renderingEnv)])
        { currentRoute := initialRoute, appInnerHTML := "", links := [], tabs := [], page := [] }
      ).currentRoute.cssHrefs = d.css ∧
      ∀ h,
        (0 < attachedCount h
          (runCalls routes ([("/achievements", renderingEnv)] ++ [("/about", renderingEnv)])
            { currentRoute := initialRoute, appInnerHTML := "", links := [], tabs := [],
              page := [] }).links
          ↔ h ∈ d.css) ∧
        attachedCount h
          (runCalls routes ([("/achievements", renderingEnv)] ++ [("/about", renderingEnv)])
            { currentRoute := initialRoute, appInnerHTML := "", links := [], tabs := [],
              page := [] }).links
          ≤ 1 :=
  have hall : ∀ o ∈ outcomes routes
      ([("/achievements", renderingEnv)] ++ [("/about", renderingEnv)])
      { currentRoute := initialRoute, appInnerHTML := "", links := [], tabs := [], page := [] },
      o = .completed := by decide
  ⟨by decide, hall, attached_set_is_route_css routes [("/achievements", renderingEnv)] "/about"
    renderingEnv "" [] [] (by decide) hall⟩

end GW2Toolbox
